import Mathlib

/-!
Verification of the rlox tree-walking Lox interpreter (Rust) against its
specification.  The Rust sources are shallowly embedded: each Rust function
becomes an executable Lean definition over explicit state; `Rc<RefCell<_>>`
scopes become indices into an arena; Rust panics (`unwrap` on `None`/`Err`,
out-of-bounds indexing, non-char-boundary slicing) become explicit `panicked`
outcomes; unbounded loops and recursion take a fuel parameter, with `fuelOut`
marking exhaustion.
-/

namespace RLox

/-! ## Numbers

Idealization of Rust `f64`: finite values are exact rationals, plus the three
special values.  Negative zero is collapsed into `finite 0`, and arithmetic on
finite values is exact (no rounding, no overflow to infinity).  Every theorem
below exercises only small integer-valued numbers, where this model agrees
with IEEE-754 binary64 exactly; the NaN/equality behaviour that claim C9 is
about is modelled faithfully.

`Q` is a plain executable rational (kept normalized by the smart constructor
`Q.norm`), so that whole interpreter runs reduce inside the kernel. -/
structure Q where
  num : Int
  den : Nat
deriving DecidableEq, Repr

namespace Q

/-- Normalized rational `n / d` for `d ≠ 0`. -/
def norm (n : Int) (d : Nat) : Q :=
  let g := Nat.gcd n.natAbs d
  if g = 0 then ⟨0, 1⟩ else ⟨n / (g : Int), d / g⟩

def ofInt (i : Int) : Q := ⟨i, 1⟩

instance : OfNat Q n := ⟨⟨n, 1⟩⟩

instance : IntCast Q := ⟨ofInt⟩

instance : Neg Q := ⟨fun a => ⟨-a.num, a.den⟩⟩

instance : Add Q := ⟨fun a b => norm (a.num * b.den + b.num * a.den) (a.den * b.den)⟩

instance : Sub Q := ⟨fun a b => a + -b⟩

instance : Mul Q := ⟨fun a b => norm (a.num * b.num) (a.den * b.den)⟩

/-- Division (divisor with nonzero numerator expected; callers guard). -/
instance : Div Q := ⟨fun a b =>
  if b.num < 0 then norm (-(a.num * b.den)) (a.den * b.num.natAbs)
  else norm (a.num * b.den) (a.den * b.num.natAbs)⟩

instance : LT Q := ⟨fun a b => a.num * b.den < b.num * a.den⟩

instance : LE Q := ⟨fun a b => a.num * b.den ≤ b.num * a.den⟩

instance (a b : Q) : Decidable (a < b) := inferInstanceAs (Decidable (_ < (_ : Int)))

instance (a b : Q) : Decidable (a ≤ b) := inferInstanceAs (Decidable (_ ≤ (_ : Int)))

/-- Floor (exact for the nonnegative values it is applied to below). -/
def floor (a : Q) : Int := a.num.ediv a.den

end Q

inductive F64 where
  | finite (val : Q)
  | inf
  | neginf
  | nan
deriving DecidableEq, Repr

namespace F64

/-- IEEE-754 equality as implemented by Rust `PartialEq for f64`:
NaN compares unequal to everything, including itself. -/
def ieeeEq : F64 → F64 → Bool
  | finite a, finite b => a == b
  | inf, inf => true
  | neginf, neginf => true
  | _, _ => false

def add : F64 → F64 → F64
  | nan, _ => nan
  | _, nan => nan
  | inf, neginf => nan
  | neginf, inf => nan
  | inf, _ => inf
  | _, inf => inf
  | neginf, _ => neginf
  | _, neginf => neginf
  | finite a, finite b => finite (a + b)

def neg : F64 → F64
  | finite a => finite (-a)
  | inf => neginf
  | neginf => inf
  | nan => nan

def sub (x y : F64) : F64 := add x (neg y)

def mul : F64 → F64 → F64
  | nan, _ => nan
  | _, nan => nan
  | finite a, finite b => finite (a * b)
  | finite a, inf => if a = 0 then nan else if a > 0 then inf else neginf
  | finite a, neginf => if a = 0 then nan else if a > 0 then neginf else inf
  | inf, finite b => if b = 0 then nan else if b > 0 then inf else neginf
  | neginf, finite b => if b = 0 then nan else if b > 0 then neginf else inf
  | inf, inf => inf
  | inf, neginf => neginf
  | neginf, inf => neginf
  | neginf, neginf => inf

/-- Division with IEEE rules: a nonzero finite value divided by zero gives an
infinity, zero by zero gives NaN (signed zero is collapsed, so the sign of the
infinity follows the dividend alone). -/
def div : F64 → F64 → F64
  | nan, _ => nan
  | _, nan => nan
  | inf, inf => nan
  | inf, neginf => nan
  | neginf, inf => nan
  | neginf, neginf => nan
  | inf, finite b => if b ≥ 0 then inf else neginf
  | neginf, finite b => if b ≥ 0 then neginf else inf
  | finite _, inf => finite 0
  | finite _, neginf => finite 0
  | finite a, finite b =>
    if b = 0 then (if a = 0 then nan else if a > 0 then inf else neginf)
    else finite (a / b)

def lt : F64 → F64 → Bool
  | finite a, finite b => a < b
  | finite _, inf => true
  | neginf, finite _ => true
  | neginf, inf => true
  | _, _ => false

def le (x y : F64) : Bool := lt x y || ieeeEq x y

def gt (x y : F64) : Bool := lt y x

def ge (x y : F64) : Bool := le y x

/-- Decimal digits of a rational 0 ≤ r < 1, produced left to right; exact for
fractions with at most `fuel` decimal digits, truncated past that.  Rust's
shortest-round-trip float printing agrees with this on every value any theorem
below prints. -/
def fracDigits : Nat → Q → String
  | 0, _ => ""
  | n + 1, r =>
    if r = 0 then ""
    else
      let d : Int := (r * 10).floor
      let rest : Q := r * 10 - (d : Q)
      (toString d).append (fracDigits n rest)

/-- Rendering of a nonnegative rational as Rust renders the corresponding
finite double with `{}` (Display): no trailing `.0` on integers. -/
def ratDisplay (q : Q) : String :=
  if q.den = 1 then toString q.num
  else toString (q.floor) ++ "." ++ fracDigits 17 (q - (q.floor : Q))

/-- Rust `Display` for `f64` (`{}`, `to_string`). -/
def display : F64 → String
  | finite q => if q < 0 then "-" ++ ratDisplay (-q) else ratDisplay q
  | inf => "inf"
  | neginf => "-inf"
  | nan => "NaN"

/-- Rust `Debug` for `f64` (`{:?}`): integers keep a trailing `.0`. -/
def debug : F64 → String
  | finite q =>
    let p := fun (r : Q) =>
      if r.den = 1 then toString r.num ++ ".0"
      else toString (r.floor) ++ "." ++ fracDigits 17 (r - (r.floor : Q))
    if q < 0 then "-" ++ p (-q) else p q
  | inf => "inf"
  | neginf => "-inf"
  | nan => "NaN"

end F64

/-! ## Token model

From `src/interpreter/src/ast/token.rs` and `src/src/scanner/token.rs` (the
two crates declare the same shape).  The `TokenType` and `Literal` enums live
in `tokentype.rs`, which is absent from the staged sources; they are modelled
from the spec's closed token-kind list (§6) and literal variant list (§3),
which the staged code matches constructor by constructor. -/
inductive TokenType where
  | LeftParen | RightParen | LeftBrace | RightBrace | Comma | Dot | Minus | Plus
  | Semicolon | Slash | Star
  | Bang | BangEqual | Equal | EqualEqual
  | Greater | GreaterEqual | Less | LessEqual
  | Identifier | StringTok | NumberTok
  | And | Class | Else | False | Fun | For | If | Nil | Or | Print
  | Return | Super | This | True | Var | While
  | Eof
deriving DecidableEq, Repr

/-- Literal — tagged variant `String(text) | Number(f64) | Boolean(bool) | Nil`. -/
inductive Literal where
  | str (s : String)
  | num (n : F64)
  | boolean (b : Bool)
  | nil
deriving DecidableEq, Repr

structure Token where
  token_type : TokenType
  lexeme : String
  literal : Option Literal
  line : Nat
deriving DecidableEq, Repr

def Token.new (tt : TokenType) (lexeme : String) (lit : Option Literal) (line : Nat) : Token :=
  ⟨tt, lexeme, lit, line⟩

/-! ## Error reporter

From `src/interpreter/src/error.rs`: two sticky flags plus everything written
to standard error.  The Rust `report` format string is `"[line {}] Error {}: {}"`. -/
structure Reporter where
  has_error : Bool
  has_runtime_error : Bool
  stderr : List String
deriving DecidableEq, Repr

def Reporter.new : Reporter := ⟨false, false, []⟩

def Reporter.report (r : Reporter) (line : Nat) (place msg : String) : Reporter :=
  { r with
    has_error := true
    stderr := r.stderr ++ ["[line " ++ toString line ++ "] Error " ++ place ++ ": " ++ msg] }

/-- Reporter.error: note the Rust builds `" at end"` with a leading space but
`format!("at '{}'", …)` without one (the `report` format supplies one space
after `Error` in both cases). -/
def Reporter.error (r : Reporter) (tok : Token) (msg : String) : Reporter :=
  if tok.token_type = TokenType.Eof then r.report tok.line " at end" msg
  else r.report tok.line ("at '" ++ tok.lexeme ++ "'") msg

def Reporter.runtime_error (r : Reporter) (tok : Token) (msg : String) : Reporter :=
  { r with
    has_runtime_error := true
    stderr := r.stderr ++
      ["[line " ++ toString tok.line ++ "] Error " ++ ("at '" ++ tok.lexeme ++ "'") ++ ": " ++ msg] }

def Reporter.reset (r : Reporter) : Reporter := { r with has_error := false }

/-! ## Scanner

From `src/src/scanner/scanner.rs`.  The Rust scanner keeps two views of the
source: `source: &str` (indexed and measured in BYTES) and `_source: Vec<char>`
(indexed in chars), while `_start`/`_current` are single counters used against
both — the byte/char confusion is modelled faithfully.  `source.len()` is
`srcBytes`, `Vec` indexing is `List.get?` (out of bounds = Rust panic), and
`&source[a..b]` slicing is `sliceBytes` (`none` = Rust panic: out of bounds or
not a char boundary). -/
def srcBytes (cs : List Char) : Nat := (cs.map Char.utf8Size).sum

def dropBytes : List Char → Nat → Option (List Char)
  | cs, 0 => some cs
  | [], _ + 1 => none
  | c :: cs, n + 1 =>
    if c.utf8Size ≤ n + 1 then dropBytes cs (n + 1 - c.utf8Size) else none

def takeBytes : List Char → Nat → Option (List Char)
  | _, 0 => some []
  | [], _ + 1 => none
  | c :: cs, n + 1 =>
    if c.utf8Size ≤ n + 1 then (takeBytes cs (n + 1 - c.utf8Size)).map (fun l => c :: l)
    else none

def sliceBytes (cs : List Char) (a b : Nat) : Option String :=
  if a ≤ b then (dropBytes cs a).bind (fun t => (takeBytes t (b - a)).map String.mk)
  else none

/-- Model of Rust `char::is_numeric`.  Faithful on ASCII (the Unicode `Nd`
table beyond ASCII is not modelled: non-ASCII characters are classified as
not numeric); no theorem below rests on a non-ASCII character's class. -/
def charIsNumeric (c : Char) : Bool := c.isDigit

/-- Model of Rust `char::is_alphabetic`; same ASCII caveat as `charIsNumeric`. -/
def charIsAlphabetic (c : Char) : Bool := c.isAlpha

/-- Model of Rust `char::is_alphanumeric`; same ASCII caveat as `charIsNumeric`. -/
def charIsAlphanumeric (c : Char) : Bool := c.isAlphanum

/-- Modelled from the spec: `keywords.rs` (the module holding
`get_keyword_token_type`, the fixed keyword table) is not among the staged
sources; the table is the spec keyword list of §4.1/§6. -/
def get_keyword_token_type : String → Option TokenType
  | "and" => some .And
  | "class" => some .Class
  | "else" => some .Else
  | "false" => some .False
  | "fun" => some .Fun
  | "for" => some .For
  | "if" => some .If
  | "nil" => some .Nil
  | "or" => some .Or
  | "print" => some .Print
  | "return" => some .Return
  | "super" => some .Super
  | "this" => some .This
  | "true" => some .True
  | "var" => some .Var
  | "while" => some .While
  | _ => none

/-- Model of Rust `parse::<f64>()` on the digit lexemes the scanner produces:
`digits` or `digits.digits`, idealized to an exact rational.  `none` models a
parse error (whose `unwrap` in `scan_number` is a panic). -/
def digitsValGo : List Char → Nat → Option Nat
  | [], acc => some acc
  | c :: cs, acc =>
    if c.isDigit then digitsValGo cs (acc * 10 + (c.toNat - 48)) else none

def digitsVal : List Char → Option Nat
  | [] => none
  | cs => digitsValGo cs 0

def parseF64 (s : String) : Option Q :=
  let cs := s.data
  let intPart := cs.takeWhile (fun c => c ≠ '.')
  let rest := cs.dropWhile (fun c => c ≠ '.')
  match rest with
  | [] => (digitsVal intPart).map (fun n => (⟨n, 1⟩ : Q))
  | _ :: frac =>
    if frac.contains '.' then none
    else
      match digitsVal intPart, digitsVal frac with
      | some na, some nb => some ((⟨na, 1⟩ : Q) + Q.norm nb (10 ^ frac.length))
      | _, _ => none

structure Scanner where
  source : List Char
  tokens : List Token
  reporter : Reporter
  start : Nat
  current : Nat
  line : Nat
deriving DecidableEq, Repr

/-- Outcome of a scanner routine: `panicked` is a Rust panic (vector index out
of bounds, slice not on a char boundary, failed `unwrap`), `fuelOut` marks
exhaustion of the fuel that stands in for Rust's unbounded loops. -/
inductive ScanRes where
  | ok (s : Scanner)
  | panicked
  | fuelOut
deriving DecidableEq, Repr

namespace Scanner

def new (src : String) : Scanner :=
  ⟨src.data, [], Reporter.new, 0, 0, 1⟩

def is_at_end (s : Scanner) : Bool := s.current ≥ srcBytes s.source

def advance (s : Scanner) : Option Char × Scanner :=
  (s.source.get? s.current, { s with current := s.current + 1 })

def match_char (s : Scanner) (expected : Char) : Bool × Scanner :=
  if s.is_at_end then (false, s)
  else
    match s.source.get? s.current with
    | some c => if c = expected then (true, { s with current := s.current + 1 }) else (false, s)
    | none => (false, s)

def peek (s : Scanner) : Option Char :=
  if s.is_at_end then some (Char.ofNat 0) else s.source.get? s.current

def peek_next (s : Scanner) : Option Char :=
  if s.current + 1 ≥ srcBytes s.source then some (Char.ofNat 0)
  else s.source.get? (s.current + 1)

def add_token (s : Scanner) (tt : TokenType) : Scanner :=
  { s with tokens := s.tokens ++ [Token.new tt "" none s.line] }

def add_token_literal (s : Scanner) (tt : TokenType) (lit : Option Literal) : Option Scanner :=
  (sliceBytes s.source s.start s.current).map fun lexeme =>
    { s with tokens := s.tokens ++ [Token.new tt lexeme lit s.line] }

def report (s : Scanner) (line : Nat) (place msg : String) : Scanner :=
  { s with reporter := s.reporter.report line place msg }

/-- Loop of `scan_string`; the body reads `peek` a second time for the newline
test, which returns the same character as the guard's read. -/
def string_loop : Nat → Scanner → Char → ScanRes
  | 0, _, _ => .fuelOut
  | fuel + 1, s, delim =>
    match s.peek with
    | none => .panicked
    | some c =>
      if c ≠ delim && !s.is_at_end then
        let s := if c = '\n' then { s with line := s.line + 1 } else s
        string_loop fuel (s.advance).2 delim
      else .ok s

def scan_string (fuel : Nat) (s : Scanner) (delim : Char) : ScanRes :=
  match string_loop fuel s delim with
  | .fuelOut => .fuelOut
  | .panicked => .panicked
  | .ok s =>
    if s.is_at_end then .ok (s.report s.line "" "Unterminated string.")
    else
      let s := (s.advance).2
      match sliceBytes s.source (s.start + 1) (s.current - 1) with
      | none => .panicked
      | some value =>
        match s.add_token_literal .StringTok (some (Literal.str value)) with
        | none => .panicked
        | some s => .ok s

/-- Loop `while self.peek().is_numeric() { self.advance(); }`. -/
def digits_loop : Nat → Scanner → ScanRes
  | 0, _ => .fuelOut
  | fuel + 1, s =>
    match s.peek with
    | none => .panicked
    | some c =>
      if charIsNumeric c then digits_loop fuel (s.advance).2
      else .ok s

def scan_number (fuel : Nat) (s : Scanner) : ScanRes :=
  match digits_loop fuel s with
  | .fuelOut => .fuelOut
  | .panicked => .panicked
  | .ok s =>
    match s.peek, s.peek_next with
    | none, _ => .panicked
    | _, none => .panicked
    | some c, some c2 =>
      let afterFrac : ScanRes :=
        if c = '.' && charIsNumeric c2 then digits_loop fuel (s.advance).2
        else .ok s
      match afterFrac with
      | .fuelOut => .fuelOut
      | .panicked => .panicked
      | .ok s =>
        match sliceBytes s.source s.start s.current with
        | none => .panicked
        | some lexeme =>
          match parseF64 lexeme with
          | none => .panicked
          | some q =>
            match s.add_token_literal .NumberTok (some (Literal.num (F64.finite q))) with
            | none => .panicked
            | some s => .ok s

/-- Loop `while self.peek().is_alphanumeric() || self.peek() == '_'`. -/
def ident_loop : Nat → Scanner → ScanRes
  | 0, _ => .fuelOut
  | fuel + 1, s =>
    match s.peek with
    | none => .panicked
    | some c =>
      if charIsAlphanumeric c || c = '_' then ident_loop fuel (s.advance).2
      else .ok s

/-- Note `scan_identifier` emits via `add_token`: identifier and keyword
tokens carry an EMPTY lexeme in this scanner (the slice is computed only to
consult the keyword table). -/
def scan_identifier (fuel : Nat) (s : Scanner) : ScanRes :=
  match ident_loop fuel s with
  | .fuelOut => .fuelOut
  | .panicked => .panicked
  | .ok s =>
    match sliceBytes s.source s.start s.current with
    | none => .panicked
    | some text =>
      let tt := match get_keyword_token_type text with
        | some tt => tt
        | none => TokenType.Identifier
      .ok (s.add_token tt)

/-- Loop `while self.peek() != '\n' && !self.is_at_end()`. -/
def comment_loop : Nat → Scanner → ScanRes
  | 0, _ => .fuelOut
  | fuel + 1, s =>
    match s.peek with
    | none => .panicked
    | some c =>
      if c ≠ '\n' && !s.is_at_end then comment_loop fuel (s.advance).2
      else .ok s

def scan_token (fuel : Nat) (s : Scanner) : ScanRes :=
  let (char, s) := s.advance
  match char with
  | some '(' => .ok (s.add_token .LeftParen)
  | some ')' => .ok (s.add_token .RightParen)
  | some '{' => .ok (s.add_token .LeftBrace)
  | some '}' => .ok (s.add_token .RightBrace)
  | some ',' => .ok (s.add_token .Comma)
  | some '.' => .ok (s.add_token .Dot)
  | some '-' => .ok (s.add_token .Minus)
  | some '+' => .ok (s.add_token .Plus)
  | some ';' => .ok (s.add_token .Semicolon)
  | some '*' => .ok (s.add_token .Star)
  | some '!' =>
    let (m, s) := s.match_char '='
    .ok (s.add_token (if m then .BangEqual else .Bang))
  | some '=' =>
    let (m, s) := s.match_char '='
    .ok (s.add_token (if m then .EqualEqual else .Equal))
  | some '<' =>
    let (m, s) := s.match_char '='
    .ok (s.add_token (if m then .LessEqual else .Less))
  | some '>' =>
    let (m, s) := s.match_char '='
    .ok (s.add_token (if m then .GreaterEqual else .Greater))
  | some ' ' => .ok s
  | some '\r' => .ok s
  | some '\t' => .ok s
  | some '\n' => .ok { s with line := s.line + 1 }
  | some '/' =>
    let (m, s) := s.match_char '/'
    if m then comment_loop fuel s else .ok (s.add_token .Slash)
  | some '\"' => scan_string fuel s '\"'
  | some '\'' => scan_string fuel s '\''
  | none => .ok s
  | some c =>
    if charIsNumeric c then scan_number fuel s
    else if charIsAlphabetic c || c = '_' then scan_identifier fuel s
    else .ok (s.report s.line "" ("Unexpected character: '" ++ String.mk [c] ++ "'"))

def scan_loop : Nat → Scanner → ScanRes
  | 0, _ => .fuelOut
  | fuel + 1, s =>
    if s.is_at_end then .ok s
    else
      match scan_token fuel { s with start := s.current } with
      | .ok s' => scan_loop fuel s'
      | r => r

/-- Top-level `scan_tokens`: runs the scan loop to completion, then pushes
`Token::new(TokenType::Eof, "", None, 0)` — the Eof token's line field is the
literal 0 in the source, not the current line counter. -/
def scan_tokens (s : Scanner) : ScanRes :=
  match scan_loop (srcBytes s.source + 1) s with
  | .ok s' => .ok { s' with tokens := s'.tokens ++ [Token.new .Eof "" none 0] }
  | r => r

end Scanner

/-! ## AST

From `src/interpreter/src/ast/expr.rs` and `src/interpreter/src/ast/stmt.rs`. -/
inductive Expr where
  | AssignExpr (name : Token) (value : Expr)
  | BinaryExpr (left : Expr) (op : Token) (right : Expr)
  | GroupingExpr (e : Expr)
  | LiteralExpr (l : Literal)
  | UnaryExpr (op : Token) (right : Expr)
  | VariableExpr (name : Token)
  | LogicalExpr (left : Expr) (op : Token) (right : Expr)
  | Call (callee : Expr) (paren : Token) (args : List Expr)
deriving Repr

inductive Stmt where
  | Print (e : Expr)
  | Expression (e : Expr)
  | VarDeclaration (name : Token) (initializer : Option Expr)
  | Function (name : Token) (parameters : List Token) (body : Stmt)
  | Block (stmts : List Stmt)
  | If (cond : Expr) (thenBranch : Stmt) (elseBranch : Option Stmt)
  | While (cond : Expr) (body : Stmt)
  | Return (keyword : Token) (value : Expr)
deriving Repr

def bexpr (l : Expr) (op : Token) (r : Expr) : Expr := Expr.BinaryExpr l op r

def gexpr (g : Expr) : Expr := Expr.GroupingExpr g

def lexpr (l : Literal) : Expr := Expr.LiteralExpr l

def uexpr (op : Token) (r : Expr) : Expr := Expr.UnaryExpr op r

def vexpr (name : Token) : Expr := Expr.VariableExpr name

def aexpr (name : Token) (v : Expr) : Expr := Expr.AssignExpr name v

def lgexpr (l : Expr) (op : Token) (r : Expr) : Expr := Expr.LogicalExpr l op r

def cexpr (callee : Expr) (paren : Token) (args : List Expr) : Expr :=
  Expr.Call callee paren args

def pstmt (e : Expr) : Stmt := Stmt.Print e

def estmt (e : Expr) : Stmt := Stmt.Expression e

def vdstmt (t : Token) (init : Option Expr) : Stmt := Stmt.VarDeclaration t init

def ifstmt (c : Expr) (t : Stmt) (e : Option Stmt) : Stmt := Stmt.If c t e

def wstmt (c : Expr) (b : Stmt) : Stmt := Stmt.While c b

def fstmt (name : Token) (params : List Token) (body : Stmt) : Stmt :=
  Stmt.Function name params body

structure ParseError where
  token : Token
  message : String
deriving DecidableEq, Repr

/-! ## Parser

From `src/interpreter/src/parser/parser.rs`.  The parser state is the fixed
token vector, the `Cell<usize>` cursor and the error reporter.  `peek` and
`previous` `unwrap` a `Vec::get`, so going out of bounds (or `current - 1`
underflowing at 0) is a Rust panic, modelled by `panicked`.  Each function
takes fuel standing in for Rust's call stack and loops. -/
structure PState where
  tokens : List Token
  current : Nat
  reporter : Reporter
deriving DecidableEq, Repr

inductive POut (α : Type) where
  | ok (a : α) (st : PState)
  | err (e : ParseError) (st : PState)
  | panicked
  | fuelOut
deriving DecidableEq, Repr

namespace Parser

def peekT (st : PState) : Option Token := st.tokens.get? st.current

def previous (st : PState) : Option Token :=
  if st.current = 0 then none else st.tokens.get? (st.current - 1)

def is_at_end (st : PState) : Option Bool :=
  (peekT st).map (fun t => t.token_type = TokenType.Eof)

def check (st : PState) (tt : TokenType) : Option Bool :=
  match is_at_end st with
  | none => none
  | some true => some false
  | some false => (peekT st).map (fun t => t.token_type = tt)

def advance (st : PState) : Option (Token × PState) :=
  match is_at_end st with
  | none => none
  | some b =>
    let st := if b then st else { st with current := st.current + 1 }
    (previous st).map (fun t => (t, st))

def match_token : PState → List TokenType → Option (Bool × PState)
  | st, [] => some (false, st)
  | st, tt :: rest =>
    match check st tt with
    | none => none
    | some true => (advance st).map (fun p => (true, p.2))
    | some false => match_token st rest

def consume (st : PState) (tt : TokenType) (msg : String) : POut Token :=
  match check st tt with
  | none => .panicked
  | some true =>
    match advance st with
    | none => .panicked
    | some (t, st') => .ok t st'
  | some false =>
    match peekT st with
    | none => .panicked
    | some t => .err ⟨t, msg⟩ st

def error (st : PState) (tok : Token) (msg : String) : PState :=
  { st with reporter := st.reporter.error tok msg }

def synchronize_loop : Nat → PState → POut Unit
  | 0, _ => .fuelOut
  | fuel + 1, st =>
    match is_at_end st with
    | none => .panicked
    | some true => .ok () st
    | some false =>
      match previous st with
      | none => .panicked
      | some prev =>
        if prev.token_type = TokenType.Semicolon then .ok () st
        else
          match peekT st with
          | none => .panicked
          | some t =>
            match t.token_type with
            | .Class | .Fun | .Var | .For | .If | .While | .Print | .Return => .ok () st
            | _ =>
              match advance st with
              | none => .panicked
              | some (_, st') => synchronize_loop fuel st'

def synchronize (fuel : Nat) (st : PState) : POut Unit :=
  match advance st with
  | none => .panicked
  | some (_, st) => synchronize_loop fuel st

/-- Encoding of Rust's `?` operator on a `Result`-returning parser call. -/
def pbind {α β : Type} (r : POut α) (f : α → PState → POut β) : POut β :=
  match r with
  | .ok a st => f a st
  | .err e st => .err e st
  | .panicked => .panicked
  | .fuelOut => .fuelOut

/-- Encoding of a Rust call whose `None`/out-of-bounds case is a panic
(`peek`, `previous`, `match_token`'s internal reads). -/
def obind {α : Type} {β : Type} (r : Option α) (f : α → POut β) : POut β :=
  match r with
  | some a => f a
  | none => .panicked

mutual

def declaration : Nat → PState → POut Stmt
  | 0, _ => .fuelOut
  | fuel + 1, st =>
    obind (match_token st [TokenType.Fun]) fun (m, st) =>
    if m then fun_decl_stmt fuel st "function"
    else
      obind (match_token st [TokenType.Var]) fun (m, st) =>
      if m then var_decl_stmt fuel st
      else statement fuel st

def statement : Nat → PState → POut Stmt
  | 0, _ => .fuelOut
  | fuel + 1, st =>
    obind (match_token st [TokenType.For]) fun (m, st) =>
    if m then for_stmt fuel st
    else
      obind (match_token st [TokenType.If]) fun (m, st) =>
      if m then if_stmt fuel st
      else
        obind (match_token st [TokenType.Print]) fun (m, st) =>
        if m then print_stmt fuel st
        else
          obind (match_token st [TokenType.While]) fun (m, st) =>
          if m then while_stmt fuel st
          else
            obind (match_token st [TokenType.Return]) fun (m, st) =>
            if m then return_stmt fuel st
            else
              obind (match_token st [TokenType.LeftBrace]) fun (m, st) =>
              if m then
                pbind (block fuel st) fun stmts st => .ok (Stmt.Block stmts) st
              else expression_stmt fuel st

def block : Nat → PState → POut (List Stmt)
  | 0, _ => .fuelOut
  | fuel + 1, st => block_loop fuel st []

def block_loop : Nat → PState → List Stmt → POut (List Stmt)
  | 0, _, _ => .fuelOut
  | fuel + 1, st, acc =>
    obind (check st TokenType.RightBrace) fun b1 =>
    obind (is_at_end st) fun b2 =>
    if !b1 && !b2 then
      pbind (declaration fuel st) fun stmt st =>
      block_loop fuel st (acc ++ [stmt])
    else
      pbind (consume st TokenType.RightBrace "Expect '\x7d' after block.") fun _ st =>
      .ok acc st

def if_stmt : Nat → PState → POut Stmt
  | 0, _ => .fuelOut
  | fuel + 1, st =>
    pbind (consume st TokenType.LeftParen "Expect '(' after 'if'.") fun _ st =>
    pbind (expression fuel st) fun condition st =>
    pbind (consume st TokenType.RightParen "Expect ')' after if condition.") fun _ st =>
    pbind (statement fuel st) fun then_branch st =>
    obind (match_token st [TokenType.Else]) fun (m, st) =>
    if m then
      pbind (statement fuel st) fun else_branch st =>
      .ok (ifstmt condition then_branch (some else_branch)) st
    else .ok (ifstmt condition then_branch none) st

def for_stmt : Nat → PState → POut Stmt
  | 0, _ => .fuelOut
  | fuel + 1, st =>
    pbind (consume st TokenType.LeftParen "Expect '(' after 'for'.") fun _ st =>
    pbind
      (obind (match_token st [TokenType.Semicolon]) fun (m, st) =>
        if m then .ok (none : Option Stmt) st
        else
          obind (match_token st [TokenType.Var]) fun (m, st) =>
          if m then pbind (var_decl_stmt fuel st) fun s st => .ok (some s) st
          else pbind (expression_stmt fuel st) fun s st => .ok (some s) st)
      fun initializer st =>
    pbind
      (obind (check st TokenType.Semicolon) fun b =>
        if !b then pbind (expression fuel st) fun c st => .ok (some c) st
        else .ok (none : Option Expr) st)
      fun condition st =>
    pbind (consume st TokenType.Semicolon "Expect ';' after loop condition.") fun _ st =>
    pbind
      (obind (check st TokenType.RightParen) fun b =>
        if !b then pbind (expression fuel st) fun i st => .ok (some i) st
        else .ok (none : Option Expr) st)
      fun increment st =>
    pbind (consume st TokenType.RightParen "Expect ')' after for clauses.") fun _ st =>
    pbind (statement fuel st) fun body st =>
    let body := match increment with
      | some i => Stmt.Block [body, estmt i]
      | none => body
    let body := match condition with
      | some c => wstmt c body
      | none => wstmt (lexpr (Literal.boolean true)) body
    let body := match initializer with
      | some init => Stmt.Block [init, body]
      | none => body
    .ok body st

def while_stmt : Nat → PState → POut Stmt
  | 0, _ => .fuelOut
  | fuel + 1, st =>
    pbind (consume st TokenType.LeftParen "Expect '(' after 'while'.") fun _ st =>
    pbind (expression fuel st) fun condition st =>
    pbind (consume st TokenType.RightParen "Expect ')' after while condition.") fun _ st =>
    pbind (statement fuel st) fun body st =>
    .ok (wstmt condition body) st

/-- Mirrors `return_stmt`.  Note the Rust uses `match_token` (which CONSUMES a
semicolon when it sees one) to test for an omitted return value, and then
still requires a semicolon via `consume`. -/
def return_stmt : Nat → PState → POut Stmt
  | 0, _ => .fuelOut
  | fuel + 1, st =>
    obind (previous st) fun token =>
    pbind
      (obind (match_token st [TokenType.Semicolon]) fun (m, st) =>
        if !m then expression fuel st
        else .ok (lexpr Literal.nil) st)
      fun return_expr st =>
    pbind (consume st TokenType.Semicolon "Expect ';' after return value.") fun _ st =>
    .ok (Stmt.Return token return_expr) st

def fun_decl_stmt : Nat → PState → String → POut Stmt
  | 0, _, _ => .fuelOut
  | fuel + 1, st, kind =>
    pbind (consume st TokenType.Identifier ("Expect " ++ kind ++ " name.")) fun name st =>
    pbind (consume st TokenType.LeftParen ("Expect '(' after " ++ kind ++ " name.")) fun _ st =>
    pbind
      (obind (check st TokenType.RightParen) fun b =>
        if !b then params_loop fuel st []
        else .ok ([] : List Token) st)
      fun parameters st =>
    pbind (consume st TokenType.RightParen "Expect ')' after parameters.") fun _ st =>
    pbind (consume st TokenType.LeftBrace ("Expect '\x7b' to start " ++ kind ++ " body.")) fun _ st =>
    pbind (block fuel st) fun body st =>
    .ok (fstmt name parameters (Stmt.Block body)) st

def params_loop : Nat → PState → List Token → POut (List Token)
  | 0, _, _ => .fuelOut
  | fuel + 1, st, acc =>
    pbind
      (if acc.length > 255 then
        obind (peekT st) fun t => .ok () (error st t "Can't have more than 255 parameters")
      else .ok () st)
      fun _ st =>
    pbind (consume st TokenType.Identifier "Expect parameter name.") fun p st =>
    obind (match_token st [TokenType.Comma]) fun (m, st) =>
    if m then params_loop fuel st (acc ++ [p])
    else .ok (acc ++ [p]) st

def var_decl_stmt : Nat → PState → POut Stmt
  | 0, _ => .fuelOut
  | fuel + 1, st =>
    pbind (consume st TokenType.Identifier "Expect variable name.") fun token st =>
    pbind
      (obind (match_token st [TokenType.Equal]) fun (m, st) =>
        if m then pbind (expression fuel st) fun e st => .ok (some e) st
        else .ok (none : Option Expr) st)
      fun expr st =>
    pbind (consume st TokenType.Semicolon "Expect ';' after variable declaration.") fun _ st =>
    .ok (vdstmt token expr) st

def print_stmt : Nat → PState → POut Stmt
  | 0, _ => .fuelOut
  | fuel + 1, st =>
    pbind (expression fuel st) fun value st =>
    pbind (consume st TokenType.Semicolon "Expect ';' after value.") fun _ st =>
    .ok (pstmt value) st

def expression_stmt : Nat → PState → POut Stmt
  | 0, _ => .fuelOut
  | fuel + 1, st =>
    pbind (expression fuel st) fun expr st =>
    pbind (consume st TokenType.Semicolon "Expect ';' after value.") fun _ st =>
    .ok (estmt expr) st

def expression : Nat → PState → POut Expr
  | 0, _ => .fuelOut
  | fuel + 1, st => assignment fuel st

def assignment : Nat → PState → POut Expr
  | 0, _ => .fuelOut
  | fuel + 1, st =>
    pbind (orRule fuel st) fun expr st =>
    obind (match_token st [TokenType.Equal]) fun (m, st) =>
    if m then
      obind (previous st) fun equals =>
      pbind (assignment fuel st) fun value st =>
      match expr with
      | Expr.VariableExpr token => .ok (aexpr token value) st
      | _ => .err ⟨equals, "Invalid assignment target."⟩ st
    else .ok expr st

/-- The Rust method is `fn or`; renamed `orRule` because `or` would shadow
the Boolean connective in Lean. -/
def orRule : Nat → PState → POut Expr
  | 0, _ => .fuelOut
  | fuel + 1, st =>
    pbind (andRule fuel st) fun expr st => or_loop fuel st expr

def or_loop : Nat → PState → Expr → POut Expr
  | 0, _, _ => .fuelOut
  | fuel + 1, st, expr =>
    obind (match_token st [TokenType.Or]) fun (m, st) =>
    if m then
      obind (previous st) fun op =>
      pbind (andRule fuel st) fun right st =>
      or_loop fuel st (lgexpr expr op right)
    else .ok expr st

/-- The Rust method is `fn and`; renamed like `orRule`. -/
def andRule : Nat → PState → POut Expr
  | 0, _ => .fuelOut
  | fuel + 1, st =>
    pbind (equality fuel st) fun expr st => and_loop fuel st expr

def and_loop : Nat → PState → Expr → POut Expr
  | 0, _, _ => .fuelOut
  | fuel + 1, st, expr =>
    obind (match_token st [TokenType.And]) fun (m, st) =>
    if m then
      obind (previous st) fun op =>
      pbind (equality fuel st) fun right st =>
      and_loop fuel st (lgexpr expr op right)
    else .ok expr st

def equality : Nat → PState → POut Expr
  | 0, _ => .fuelOut
  | fuel + 1, st =>
    pbind (comparison fuel st) fun expr st => equality_loop fuel st expr

def equality_loop : Nat → PState → Expr → POut Expr
  | 0, _, _ => .fuelOut
  | fuel + 1, st, expr =>
    obind (match_token st [TokenType.BangEqual, TokenType.EqualEqual]) fun (m, st) =>
    if m then
      obind (previous st) fun op =>
      pbind (comparison fuel st) fun right st =>
      equality_loop fuel st (bexpr expr op right)
    else .ok expr st

def comparison : Nat → PState → POut Expr
  | 0, _ => .fuelOut
  | fuel + 1, st =>
    pbind (term fuel st) fun expr st => comparison_loop fuel st expr

def comparison_loop : Nat → PState → Expr → POut Expr
  | 0, _, _ => .fuelOut
  | fuel + 1, st, expr =>
    obind (match_token st
        [TokenType.Greater, TokenType.GreaterEqual, TokenType.Less, TokenType.LessEqual])
      fun (m, st) =>
    if m then
      obind (previous st) fun op =>
      pbind (term fuel st) fun right st =>
      comparison_loop fuel st (bexpr expr op right)
    else .ok expr st

def term : Nat → PState → POut Expr
  | 0, _ => .fuelOut
  | fuel + 1, st =>
    pbind (factor fuel st) fun expr st => term_loop fuel st expr

def term_loop : Nat → PState → Expr → POut Expr
  | 0, _, _ => .fuelOut
  | fuel + 1, st, expr =>
    obind (match_token st [TokenType.Minus, TokenType.Plus]) fun (m, st) =>
    if m then
      obind (previous st) fun op =>
      pbind (factor fuel st) fun right st =>
      term_loop fuel st (bexpr expr op right)
    else .ok expr st

def factor : Nat → PState → POut Expr
  | 0, _ => .fuelOut
  | fuel + 1, st =>
    pbind (unary fuel st) fun expr st => factor_loop fuel st expr

def factor_loop : Nat → PState → Expr → POut Expr
  | 0, _, _ => .fuelOut
  | fuel + 1, st, expr =>
    obind (match_token st [TokenType.Slash, TokenType.Star]) fun (m, st) =>
    if m then
      obind (previous st) fun op =>
      pbind (unary fuel st) fun right st =>
      factor_loop fuel st (bexpr expr op right)
    else .ok expr st

def unary : Nat → PState → POut Expr
  | 0, _ => .fuelOut
  | fuel + 1, st =>
    obind (match_token st [TokenType.Bang, TokenType.Minus]) fun (m, st) =>
    if m then
      obind (previous st) fun op =>
      pbind (unary fuel st) fun right st =>
      .ok (uexpr op right) st
    else callRule fuel st

/-- The Rust method is `fn call`; renamed `callRule` to leave `call` free for
the interpreter's `Function::call`. -/
def callRule : Nat → PState → POut Expr
  | 0, _ => .fuelOut
  | fuel + 1, st =>
    pbind (primary fuel st) fun expr st => call_loop fuel st expr

def call_loop : Nat → PState → Expr → POut Expr
  | 0, _, _ => .fuelOut
  | fuel + 1, st, expr =>
    obind (match_token st [TokenType.LeftParen]) fun (m, st) =>
    if m then
      pbind (finish_call fuel st expr) fun expr st =>
      call_loop fuel st expr
    else .ok expr st

def finish_call : Nat → PState → Expr → POut Expr
  | 0, _, _ => .fuelOut
  | fuel + 1, st, callee =>
    pbind
      (obind (check st TokenType.RightParen) fun b =>
        if !b then args_loop fuel st []
        else .ok ([] : List Expr) st)
      fun args st =>
    pbind (consume st TokenType.RightParen "Expect ')' after arguments.") fun paren st =>
    .ok (cexpr callee paren args) st

def args_loop : Nat → PState → List Expr → POut (List Expr)
  | 0, _, _ => .fuelOut
  | fuel + 1, st, acc =>
    if acc.length > 255 then
      obind (peekT st) fun t =>
      .err ⟨t, "Can't have more than 255 arguments."⟩ st
    else
      pbind (expression fuel st) fun e st =>
      obind (match_token st [TokenType.Comma]) fun (m, st) =>
      if m then args_loop fuel st (acc ++ [e])
      else .ok (acc ++ [e]) st

/-- Mirrors `primary`.  The `TokenType::LeftParen` arm calls
`self.consume(RightParen, …).unwrap()`: a missing closing paren is a PANIC,
not a returned `ParseError` (the source even carries the comment
"Panics if unwraps on Err"). -/
def primary : Nat → PState → POut Expr
  | 0, _ => .fuelOut
  | fuel + 1, st =>
    obind
      (match_token st
        [TokenType.True, TokenType.False, TokenType.Nil, TokenType.NumberTok,
          TokenType.StringTok, TokenType.LeftParen, TokenType.Identifier])
      fun (m, st) =>
    if m then
      obind (previous st) fun prev =>
      match prev.token_type with
      | TokenType.True => .ok (lexpr (Literal.boolean true)) st
      | TokenType.False => .ok (lexpr (Literal.boolean false)) st
      | TokenType.Nil => .ok (lexpr Literal.nil) st
      | TokenType.StringTok =>
        obind prev.literal fun l => .ok (lexpr l) st
      | TokenType.NumberTok =>
        obind prev.literal fun l => .ok (lexpr l) st
      | TokenType.Identifier => .ok (vexpr prev) st
      | TokenType.LeftParen =>
        pbind (expression fuel st) fun e st =>
        (match consume st TokenType.RightParen "Expect ')' after expression." with
          | .ok _ st => .ok (gexpr e) st
          | .err _ _ => .panicked
          | .panicked => .panicked
          | .fuelOut => .fuelOut)
      | _ =>
        obind (peekT st) fun t =>
        .err ⟨t, "Expected expression."⟩ st
    else
      obind (peekT st) fun t =>
      .err ⟨t, "Expected expression."⟩ st

end

/-- Loop of `Parser::parse`: parse declarations until `Eof`; on a
`ParseError`, report it and run panic-mode synchronization, then continue. -/
def parse_loop : Nat → PState → List Stmt → POut (List Stmt)
  | 0, _, _ => .fuelOut
  | fuel + 1, st, acc =>
    obind (is_at_end st) fun b =>
    if b then .ok acc st
    else
      match declaration fuel st with
      | .ok stmt st => parse_loop fuel st (acc ++ [stmt])
      | .err e st =>
        let st := error st e.token e.message
        match synchronize fuel st with
        | .ok _ st => parse_loop fuel st acc
        | .err _ _ => .panicked
        | .panicked => .panicked
        | .fuelOut => .fuelOut
      | .panicked => .panicked
      | .fuelOut => .fuelOut

def parse (fuel : Nat) (st : PState) : POut (List Stmt) := parse_loop fuel st []

/-- Parser state over a scanned token vector, reporter attached
(`Parser::new` + `set_error_reporter`). -/
def newState (tokens : List Token) (r : Reporter) : PState := ⟨tokens, 0, r⟩

end Parser

/-! ## Runtime values

From `src/interpreter/src/interpreter/object.rs` and `function.rs`.

The staged `function.rs` declares `Function::User` WITHOUT a `closure` field,
while `visit_function_stmt` in the staged `interpreter.rs` constructs
`Function::User { …, closure: Rc::clone(&self.env) }`; the two files cannot
compile together as staged.  The embedding carries the field so that both
sites are representable: the constructor stores the defining scope's index,
and `Function::call` IGNORES it, building the call scope on
`_interpreter.globals`, exactly as `function.rs` reads. -/
inductive NativeBody where
  | clock
deriving DecidableEq, Repr

inductive Function where
  | native (identifier : String) (arity : Nat) (body : NativeBody)
  | user (identifier : Token) (parameters : List Token) (body : Stmt) (closure : Nat)
deriving Repr

inductive Object where
  | number (n : F64)
  | str (s : String)
  | boolean (b : Bool)
  | callable (f : Function)
  | nil
deriving Repr

def Function.arity : Function → Nat
  | .native _ arity _ => arity
  | .user _ parameters _ _ => parameters.length

/-- Rust `impl Display for Function`. -/
def Function.display : Function → String
  | .native identifier _ _ => "<native fn " ++ identifier ++ ">"
  | .user identifier _ _ _ => "<fn " ++ identifier.lexeme ++ ">"

/-- Rust `From<Object> for bool` (truthiness). -/
def Object.truthy : Object → Bool
  | .boolean b => b
  | .nil => false
  | _ => true

/-- Rust `From<Object> for String` (used by the `+` string coercion).  Note
the Rust renders ANY callable as the constant `"<native fn>"` here. -/
def Object.toRustString : Object → String
  | .number n => n.display
  | .boolean b => if b then "true" else "false"
  | .str s => s
  | .nil => "nil"
  | .callable _ => "<native fn>"

/-- Rust `impl PartialEq for Object`: the four same-kind arms, everything
else (including two callables) falls to the `_ => false` catch-all. -/
def Object.eq : Object → Object → Bool
  | .number l, .number r => F64.ieeeEq l r
  | .str l, .str r => l == r
  | .boolean l, .boolean r => l == r
  | .nil, .nil => true
  | _, _ => false

/-- Escaping of Rust's `Debug` for `String` (quotes plus the common escapes;
exotic control/Unicode escapes are not modelled and never printed below). -/
def rustStrDebug (s : String) : String :=
  "\"" ++ String.join (s.data.map fun c =>
    if c = '\"' then "\\\""
    else if c = '\\' then "\\\\"
    else if c = '\n' then "\\n"
    else if c = '\t' then "\\t"
    else if c = '\r' then "\\r"
    else String.mk [c]) ++ "\""

/-- Rust `derive(Debug)` output for `Object`.  The `callable` arm is never
reached through `Display` (which matches callables first); its Rust form
would include the function's own Debug output, abbreviated here. -/
def Object.debug : Object → String
  | .number n => "Number(" ++ n.debug ++ ")"
  | .str s => "String(" ++ rustStrDebug s ++ ")"
  | .boolean b => if b then "Boolean(true)" else "Boolean(false)"
  | .nil => "Nil"
  | .callable f => "Callable(" ++ f.display ++ ")"

/-- Rust `impl Display for Object`: callables go through `Function`'s
Display, every other value through the derived DEBUG formatter (`{:?}`). -/
def Object.display : Object → String
  | .callable f => f.display
  | o => o.debug

/-- RuntimeError as the interpreter constructs it.  The staged `error.rs`
declares only `token` and `message`, while every construction site in
`interpreter.rs`, `environment.rs` and `function.rs` also supplies `value:`
(the return-carrier payload); the field is included so those sites are
representable. -/
structure RuntimeError where
  token : Token
  message : String
  value : Option Object
deriving Repr

/-! ## Environment

From `src/interpreter/src/interpreter/environment.rs`.  `Rc<RefCell<Environment>>`
handles become indices into a grow-only arena (`Heap`); the `HashMap` becomes
an association list with insert-replace (lookup/insert semantics agree, the
map's iteration order is never observed).  Walking the `enclosing` chain gets
fuel `idx + 1`: scopes only ever enclose previously allocated scopes, so the
chain of indices is strictly decreasing and the fuel suffices; the `none`
result marks the impossible breakdown (dangling index or exhausted fuel),
which no Rust execution can exhibit. -/
structure Environment where
  enclosing : Option Nat
  values : List (String × Option Object)
deriving Repr

abbrev Heap := List Environment

def Environment.new (enclosing : Option Nat) : Environment := ⟨enclosing, []⟩

def mapInsert : List (String × Option Object) → String → Option Object →
    List (String × Option Object)
  | [], k, v => [(k, v)]
  | (k', v') :: rest, k, v =>
    if k' = k then (k, v) :: rest else (k', v') :: mapInsert rest k v

def Environment.define (env : Environment) (identifier : Token) (value : Option Object) :
    Environment :=
  { env with values := mapInsert env.values identifier.lexeme value }

def uninitializedErr (t : Token) : RuntimeError :=
  ⟨t, "Uninitialized variable '" ++ t.lexeme ++ "'.", none⟩

def undefinedErr (t : Token) : RuntimeError :=
  ⟨t, "Undefined variable '" ++ t.lexeme ++ "'.", none⟩

def envGetGo (h : Heap) : Nat → Nat → Token → Option (Except RuntimeError Object)
  | 0, _, _ => none
  | fuel + 1, idx, identifier =>
    match h.get? idx with
    | none => none
    | some env =>
      match env.values.lookup identifier.lexeme with
      | some (some v) => some (.ok v)
      | some none => some (.error (uninitializedErr identifier))
      | none =>
        match env.enclosing with
        | some p => envGetGo h fuel p identifier
        | none => some (.error (undefinedErr identifier))

def envGet (h : Heap) (idx : Nat) (identifier : Token) : Option (Except RuntimeError Object) :=
  envGetGo h (idx + 1) idx identifier

/-- `Environment::assign`: replace at the scope holding the name, else walk
outward; `Ok(value.unwrap())` — an absent value would be a Rust panic, also
modelled by `none` (no caller passes `None`). -/
def envAssignGo (h : Heap) : Nat → Nat → Token → Option Object →
    Option (Except RuntimeError Object × Heap)
  | 0, _, _, _ => none
  | fuel + 1, idx, identifier, value =>
    match h.get? idx with
    | none => none
    | some env =>
      match env.values.lookup identifier.lexeme with
      | some _ =>
        let h := h.set idx { env with values := mapInsert env.values identifier.lexeme value }
        match value with
        | some v => some (.ok v, h)
        | none => none
      | none =>
        match env.enclosing with
        | some p => envAssignGo h fuel p identifier value
        | none => some (.error (undefinedErr identifier), h)

def envAssign (h : Heap) (idx : Nat) (identifier : Token) (value : Option Object) :
    Option (Except RuntimeError Object × Heap) :=
  envAssignGo h (idx + 1) idx identifier value

/-- `define` through an `Rc<RefCell<_>>` handle (`env.borrow_mut().define(…)`). -/
def heapDefine (h : Heap) (idx : Nat) (identifier : Token) (value : Option Object) : Heap :=
  match h.get? idx with
  | some env => h.set idx (env.define identifier value)
  | none => h

/-! ## Interpreter

From `src/interpreter/src/interpreter/interpreter.rs` and `function.rs`.
The interpreter state carries the arena, the `globals` and current-`env`
handles, everything printed to standard output, and the (arbitrary) instant
`clock` would read. -/
structure IState where
  heap : Heap
  globals : Nat
  env : Nat
  stdout : List String
  now : F64
deriving Repr

/-- Outcome of one evaluator routine: `err` is the `Err(RuntimeError)`
channel (also the return carrier), `panicked` a Rust panic, `fuelOut`
exhaustion of the fuel standing in for Rust's call stack and loops. -/
inductive ERes (α : Type) where
  | ok (a : α) (st : IState)
  | err (e : RuntimeError) (st : IState)
  | panicked (st : IState)
  | fuelOut
deriving Repr

def clockToken : Token := ⟨TokenType.Identifier, "clock", none, 0⟩

/-- `Interpreter::new`: one global scope holding the native `clock`. -/
def Interpreter.new (now : F64) : IState :=
  ⟨[(Environment.new none).define clockToken
      (some (Object.callable (Function.native "clock" 0 NativeBody.clock)))],
    0, 0, [], now⟩

def NativeBody.run (b : NativeBody) (st : IState) (_args : List Object) : Object :=
  match b with
  | .clock => Object.number st.now

def non_numeric_operand_error (token : Token) : RuntimeError :=
  ⟨token, "operands must be numeric for operation", none⟩

def math_operation (left_value right_value : Object) (token : Token) :
    Except RuntimeError Object :=
  match left_value, right_value with
  | .number lvn, .number rvn =>
    match token.token_type with
    | .Plus => .ok (.number (F64.add lvn rvn))
    | .Minus => .ok (.number (F64.sub lvn rvn))
    | .Star => .ok (.number (F64.mul lvn rvn))
    | .Slash => .ok (.number (F64.div lvn rvn))
    | _ => .error ⟨token, "unknown math operation", none⟩
  | _, _ => .error (non_numeric_operand_error token)

/-- Binary dispatch after both operands are evaluated (the body of
`visit_binary_expr`).  The catch-all arm is Rust `todo!()` — a panic. -/
def binary_op (st : IState) (left_val right_val : Object) (operator : Token) : ERes Object :=
  match operator.token_type with
  | .Minus | .Star | .Slash =>
    match math_operation left_val right_val operator with
    | .ok v => .ok v st
    | .error e => .err e st
  | .Plus =>
    match left_val, right_val with
    | .number ln, .number rn => .ok (.number (F64.add ln rn)) st
    | _, _ => .ok (.str (left_val.toRustString ++ right_val.toRustString)) st
  | .Greater =>
    match left_val, right_val with
    | .number ln, .number rn => .ok (.boolean (F64.gt ln rn)) st
    | _, _ => .err (non_numeric_operand_error operator) st
  | .GreaterEqual =>
    match left_val, right_val with
    | .number ln, .number rn => .ok (.boolean (F64.ge ln rn)) st
    | _, _ => .err (non_numeric_operand_error operator) st
  | .Less =>
    match left_val, right_val with
    | .number ln, .number rn => .ok (.boolean (F64.lt ln rn)) st
    | _, _ => .err (non_numeric_operand_error operator) st
  | .LessEqual =>
    match left_val, right_val with
    | .number ln, .number rn => .ok (.boolean (F64.le ln rn)) st
    | _, _ => .err (non_numeric_operand_error operator) st
  | .BangEqual => .ok (.boolean (!Object.eq left_val right_val)) st
  | .EqualEqual => .ok (.boolean (Object.eq left_val right_val)) st
  | _ => .panicked st

mutual

/-- `Expr::accept` merged with the `ExprVisitor` impl.  NOTE the
`GroupingExpr` arm: `expr.rs` dispatches `visit_grouping_expr(self)` — the
visitor receives the WHOLE grouping node, and `visit_grouping_expr` calls
`evaluate` on it again, so evaluating a grouping recurses on itself. -/
def evaluate : Nat → IState → Expr → ERes Object
  | 0, _, _ => .fuelOut
  | fuel + 1, st, e =>
    match e with
    | Expr.LiteralExpr l =>
      match l with
      | .str s => .ok (.str s) st
      | .num n => .ok (.number n) st
      | .nil => .ok .nil st
      | .boolean b => .ok (.boolean b) st
    | Expr.GroupingExpr inner => evaluate fuel st (Expr.GroupingExpr inner)
    | Expr.BinaryExpr left operator right =>
      match evaluate fuel st left with
      | .ok left_val st =>
        match evaluate fuel st right with
        | .ok right_val st => binary_op st left_val right_val operator
        | r => r
      | r => r
    | Expr.UnaryExpr operator right =>
      match evaluate fuel st right with
      | .ok v st =>
        match operator.token_type with
        | .Minus =>
          match v with
          | .number n => .ok (.number n.neg) st
          | _ => .err (non_numeric_operand_error operator) st
        | .Bang => .ok (.boolean (!v.truthy)) st
        | _ => .err ⟨operator, "unexpected token on unary expression", none⟩ st
      | r => r
    | Expr.VariableExpr identifier =>
      match envGet st.heap st.env identifier with
      | none => .panicked st
      | some (.ok v) => .ok v st
      | some (.error e) => .err e st
    | Expr.AssignExpr identifier value =>
      match evaluate fuel st value with
      | .ok v st =>
        match envAssign st.heap st.env identifier (some v) with
        | none => .panicked st
        | some (.ok v, h) => .ok v { st with heap := h }
        | some (.error e, h) => .err e { st with heap := h }
      | r => r
    | Expr.LogicalExpr left operator right =>
      match evaluate fuel st left with
      | .ok lv st =>
        let boolean_value := lv.truthy
        if (operator.token_type = TokenType.Or && boolean_value)
            || (operator.token_type = TokenType.And && !boolean_value) then
          .ok lv st
        else evaluate fuel st right
      | r => r
    | Expr.Call callee paren args =>
      match evaluate fuel st callee with
      | .ok callee_result st =>
        match eval_args fuel st args with
        | .ok args_results st =>
          match callee_result with
          | .callable f =>
            if args_results.length ≠ f.arity then
              .err ⟨paren,
                "Expected " ++ toString f.arity ++ " arguments but got " ++
                  toString args_results.length ++ ".", none⟩ st
            else call fuel st f args_results
          | _ => .err ⟨paren, "Can only call functions or classes", none⟩ st
        | .err e st => .err e st
        | .panicked st => .panicked st
        | .fuelOut => .fuelOut
      | r => r

def eval_args : Nat → IState → List Expr → ERes (List Object)
  | 0, _, _ => .fuelOut
  | _ + 1, st, [] => .ok [] st
  | fuel + 1, st, a :: rest =>
    match evaluate fuel st a with
    | .ok v st =>
      match eval_args fuel st rest with
      | .ok vs st => .ok (v :: vs) st
      | r => r
    | .err e st => .err e st
    | .panicked st => .panicked st
    | .fuelOut => .fuelOut

/-- `Function::call`.  A user call builds its scope enclosing
`_interpreter.globals` (NOT the stored closure, NOT the caller's scope),
binds parameters to `arguments.get(idx).cloned()`, and converts ANY `Err`
from the body into `Ok(err.value.unwrap())` — a real runtime error (whose
`value` is `None`) makes that `unwrap` panic. -/
def call : Nat → IState → Function → List Object → ERes Object
  | 0, _, _, _ => .fuelOut
  | fuel + 1, st, f, arguments =>
    match f with
    | .native _ _ body => .ok (body.run st arguments) st
    | .user identifier parameters body _closure =>
      match body with
      | Stmt.Block stmts =>
        let env := (parameters.enum).foldl
          (fun env p => env.define p.2 (arguments.get? p.1))
          (Environment.new (some st.globals))
        match execute_block fuel st stmts env with
        | .err e st =>
          match e.value with
          | some v => .ok v st
          | none => .panicked st
        | .ok _ st => .ok Object.nil st
        | .panicked st => .panicked st
        | .fuelOut => .fuelOut
      | _ => .err ⟨identifier, "[UNREACHABLE] Function statements must be a block.", none⟩ st

/-- `Interpreter::execute_block`: allocate the fresh scope, run the
statements under it, and restore the previous scope handle on every exit
path (the Rust `scopeguard` also runs while a panic unwinds). -/
def execute_block : Nat → IState → List Stmt → Environment → ERes Unit
  | 0, _, _, _ => .fuelOut
  | fuel + 1, st, stmts, env =>
    let prev_env := st.env
    let st := { st with heap := st.heap ++ [env], env := st.heap.length }
    match exec_seq fuel st stmts with
    | .ok _ st => .ok () { st with env := prev_env }
    | .err e st => .err e { st with env := prev_env }
    | .panicked st => .panicked { st with env := prev_env }
    | .fuelOut => .fuelOut

def exec_seq : Nat → IState → List Stmt → ERes Unit
  | 0, _, _ => .fuelOut
  | _ + 1, st, [] => .ok () st
  | fuel + 1, st, s :: rest =>
    match execute fuel st s with
    | .ok _ st => exec_seq fuel st rest
    | r => r

/-- `Stmt::accept` merged with the `StmtVisitor` impl. -/
def execute : Nat → IState → Stmt → ERes Unit
  | 0, _, _ => .fuelOut
  | fuel + 1, st, s =>
    match s with
    | Stmt.Print e =>
      match evaluate fuel st e with
      | .ok v st => .ok () { st with stdout := st.stdout ++ [v.display] }
      | .err e st => .err e st
      | .panicked st => .panicked st
      | .fuelOut => .fuelOut
    | Stmt.Expression e =>
      match evaluate fuel st e with
      | .ok _ st => .ok () st
      | .err e st => .err e st
      | .panicked st => .panicked st
      | .fuelOut => .fuelOut
    | Stmt.VarDeclaration identifier initializer =>
      match initializer with
      | some e =>
        match evaluate fuel st e with
        | .ok v st => .ok () { st with heap := heapDefine st.heap st.env identifier (some v) }
        | .err e st => .err e st
        | .panicked st => .panicked st
        | .fuelOut => .fuelOut
      | none => .ok () { st with heap := heapDefine st.heap st.env identifier none }
    | Stmt.Block stmts => execute_block fuel st stmts (Environment.new (some st.env))
    | Stmt.If cond thenBranch elseBranch =>
      match evaluate fuel st cond with
      | .ok v st =>
        if v.truthy then execute fuel st thenBranch
        else
          match elseBranch with
          | some e => execute fuel st e
          | none => .ok () st
      | .err e st => .err e st
      | .panicked st => .panicked st
      | .fuelOut => .fuelOut
    | Stmt.While cond body => while_loop fuel st cond body
    | Stmt.Function identifier parameters body =>
      .ok () { st with
        heap := heapDefine st.heap st.env identifier
          (some (Object.callable (Function.user identifier parameters body st.env))) }
    | Stmt.Return token e =>
      match evaluate fuel st e with
      | .ok result st => .err ⟨token, "<fn return>", some result⟩ st
      | .err e st => .err e st
      | .panicked st => .panicked st
      | .fuelOut => .fuelOut

def while_loop : Nat → IState → Expr → Stmt → ERes Unit
  | 0, _, _, _ => .fuelOut
  | fuel + 1, st, cond, body =>
    match evaluate fuel st cond with
    | .ok v st =>
      if v.truthy then
        match execute fuel st body with
        | .ok _ st => while_loop fuel st cond body
        | r => r
      else .ok () st
    | .err e st => .err e st
    | .panicked st => .panicked st
    | .fuelOut => .fuelOut

end

/-- Result of `Interpreter::interpret` as the process sees it: `done` is a
normal return, `crashed` is a Rust panic aborting the process (either the
handler's `.unwrap()` on a reported error, or a deeper panic that was never
reported). -/
inductive IRes where
  | done (st : IState) (r : Reporter)
  | crashed (st : IState) (r : Reporter)
  | fuelOut
deriving Repr

/-- `Interpreter::interpret`: execute statements in order; on the first
`Err`, report it through the reporter (`self.error` → `runtime_error`) and
then `.unwrap()` the `Err` — a panic.  A panic from deeper inside (e.g.
`Function::call`) aborts without any report. -/
def interpret : Nat → IState → Reporter → List Stmt → IRes
  | 0, _, _, _ => .fuelOut
  | _ + 1, st, r, [] => .done st r
  | fuel + 1, st, r, stmt :: rest =>
    match execute fuel st stmt with
    | .ok _ st => interpret fuel st r rest
    | .err e st => .crashed st (r.runtime_error e.token e.message)
    | .panicked st => .crashed st r
    | .fuelOut => .fuelOut

/-! ## Runner

From `src/interpreter/src/runner.rs`.  The interpreter crate's own scanner
module (`src/interpreter/src/scanner/`) is not among the staged sources; the
staged sibling crate's scanner (`src/src/scanner/scanner.rs`, embedded above)
stands in for it.  A Rust panic anywhere aborts the process with an abort
status, never reaching the `process::exit` calls. -/
inductive RunRes where
  | returned (st : IState) (r : Reporter)
  | crashed (st : IState) (r : Reporter)
  | scanOrParseCrash
  | fuelOut
deriving Repr

def run (fuel : Nat) (source : String) (interp : IState) (r : Reporter) : RunRes :=
  match Scanner.scan_tokens { Scanner.new source with reporter := r } with
  | .panicked => .scanOrParseCrash
  | .fuelOut => .fuelOut
  | .ok sc =>
    let r := sc.reporter
    if r.has_error then .returned interp r
    else
      match Parser.parse fuel (Parser.newState sc.tokens r) with
      | .panicked => .scanOrParseCrash
      | .fuelOut => .fuelOut
      | .err _ _ => .scanOrParseCrash
      | .ok statements pst =>
        let r := pst.reporter
        if r.has_error then .returned interp r
        else
          match interpret fuel interp r statements with
          | .done st r => .returned st r
          | .crashed st r => .crashed st r
          | .fuelOut => .fuelOut

/-- Process outcome of `Runner::run_file`: `exited code` is a `process::exit`
(or the implicit exit 0), `crashed` a panic-abort (Rust reports status 101,
not any of the `exit` codes). -/
inductive ProcRes where
  | exited (code : Nat) (st : IState) (r : Reporter)
  | crashed (st : IState) (r : Reporter)
  | scanOrParseCrash
  | fuelOut
deriving Repr

def run_file (fuel : Nat) (source : String) (now : F64) : ProcRes :=
  match run fuel source (Interpreter.new now) Reporter.new with
  | .returned st r =>
    if r.has_error then .exited 65 st r
    else if r.has_runtime_error then .exited 70 st r
    else .exited 0 st r
  | .crashed st r => .crashed st r
  | .scanOrParseCrash => .scanOrParseCrash
  | .fuelOut => .fuelOut

/-! ## Observation views

Small decidable projections of the big result types, used to state concrete
theorems without spelling out whole heaps. -/
inductive ProcView where
  | exited (code : Nat) (stdout stderr : List String) (hasErr hasRt : Bool)
  | crashed (stdout stderr : List String) (hasErr hasRt : Bool)
  | scanOrParseCrash
  | fuelOut
deriving DecidableEq, Repr

def ProcRes.view : ProcRes → ProcView
  | .exited c st r => .exited c st.stdout r.stderr r.has_error r.has_runtime_error
  | .crashed st r => .crashed st.stdout r.stderr r.has_error r.has_runtime_error
  | .scanOrParseCrash => .scanOrParseCrash
  | .fuelOut => .fuelOut

inductive IView where
  | done (stdout stderr : List String) (hasErr hasRt : Bool)
  | crashed (stdout stderr : List String) (hasErr hasRt : Bool)
  | fuelOut
deriving DecidableEq, Repr

def IRes.view : IRes → IView
  | .done st r => .done st.stdout r.stderr r.has_error r.has_runtime_error
  | .crashed st r => .crashed st.stdout r.stderr r.has_error r.has_runtime_error
  | .fuelOut => .fuelOut

/-- View of an expression/call outcome: the value's shape, or the error's
message together with whether it carries a return value, or a panic. -/
inductive EView where
  | okNumber (n : F64) (stdout : List String)
  | okStr (s : String) (stdout : List String)
  | okBool (b : Bool) (stdout : List String)
  | okCallable (display : String) (stdout : List String)
  | okNil (stdout : List String)
  | errv (msg : String) (hasValue : Bool) (stdout : List String)
  | panicked (stdout : List String)
  | fuelOut
deriving DecidableEq, Repr

def ERes.view : ERes Object → EView
  | .ok (.number n) st => .okNumber n st.stdout
  | .ok (.str s) st => .okStr s st.stdout
  | .ok (.boolean b) st => .okBool b st.stdout
  | .ok (.callable f) st => .okCallable f.display st.stdout
  | .ok .nil st => .okNil st.stdout
  | .err e st => .errv e.message e.value.isSome st.stdout
  | .panicked st => .panicked st.stdout
  | .fuelOut => .fuelOut

/-! ## Concrete programs used by the theorems -/
def identTok (name : String) : Token := ⟨TokenType.Identifier, name, none, 1⟩

def plusTok : Token := ⟨TokenType.Plus, "", none, 1⟩

def parenTok : Token := ⟨TokenType.RightParen, "", none, 1⟩

def returnTok : Token := ⟨TokenType.Return, "", none, 1⟩

def numLit (n : Q) : Expr := lexpr (Literal.num (F64.finite n))

/-- AST of the spec's closure-counter scenario:
`fun make() { var i = 0; fun inc() { i = i + 1; return i; } return inc; }
var c = make(); print c(); print c(); print c();`
(as the interpreter receives it from its parser). -/
def closureCounterProgram : List Stmt :=
  [Stmt.Function (identTok "make") []
      (Stmt.Block
        [Stmt.VarDeclaration (identTok "i") (some (numLit 0)),
          Stmt.Function (identTok "inc") []
            (Stmt.Block
              [Stmt.Expression
                  (aexpr (identTok "i") (bexpr (vexpr (identTok "i")) plusTok (numLit 1))),
                Stmt.Return returnTok (vexpr (identTok "i"))]),
          Stmt.Return returnTok (vexpr (identTok "inc"))]),
    Stmt.VarDeclaration (identTok "c") (some (cexpr (vexpr (identTok "make")) parenTok [])),
    Stmt.Print (cexpr (vexpr (identTok "c")) parenTok []),
    Stmt.Print (cexpr (vexpr (identTok "c")) parenTok []),
    Stmt.Print (cexpr (vexpr (identTok "c")) parenTok [])]

/-- User function `fun realErr() { y; }` — its body raises a REAL runtime
error (undefined variable), not a return carrier. -/
def realErrFn : Function :=
  Function.user (identTok "realErr") []
    (Stmt.Block [Stmt.Expression (vexpr (identTok "y"))]) 0

/-- User function `fun retOne() { return 1; }`. -/
def retOneFn : Function :=
  Function.user (identTok "retOne") []
    (Stmt.Block [Stmt.Return returnTok (numLit 1)]) 0

/-- User function `fun noRet() { }` — body completes normally. -/
def noRetFn : Function :=
  Function.user (identTok "noRet") [] (Stmt.Block []) 0

/-- Discriminant of an `Object`'s kind (which constructor), used to state
cross-kind equality facts. -/
def Object.kind : Object → Nat
  | .number _ => 0
  | .str _ => 1
  | .boolean _ => 2
  | .callable _ => 3
  | .nil => 4

def numTok (n : Q) (lx : String) : Token :=
  ⟨TokenType.NumberTok, lx, some (Literal.num (F64.finite n)), 1⟩

def semiTok : Token := ⟨TokenType.Semicolon, "", none, 1⟩

def eofTok : Token := ⟨TokenType.Eof, "", none, 1⟩

def equalTok : Token := ⟨TokenType.Equal, "=", none, 1⟩

def eqeqTok : Token := ⟨TokenType.EqualEqual, "", none, 1⟩

def bangeqTok : Token := ⟨TokenType.BangEqual, "", none, 1⟩

/-- Token list of `return;`. -/
def c7ReturnOnly : List Token := [⟨TokenType.Return, "", none, 1⟩, semiTok, eofTok]

/-- Token list of `return 1;`. -/
def c7ReturnOne : List Token := [⟨TokenType.Return, "", none, 1⟩, numTok 1 "1", semiTok, eofTok]

/-- Token list of `1 = 2;` (an invalid assignment target). -/
def c8AssignTokens : List Token := [numTok 1 "1", equalTok, numTok 2 "2", semiTok, eofTok]

/-- Token list of `1 = 2 3 var x;`: after the invalid-assignment error the
parser's synchronization silently discards the `3` token and resumes at
`var`. -/
def c8SyncTokens : List Token :=
  [numTok 1 "1", equalTok, numTok 2 "2", numTok 3 "3", ⟨TokenType.Var, "", none, 1⟩,
    ⟨TokenType.Identifier, "x", none, 1⟩, semiTok, eofTok]

/-- Token list of `(1` with no closing paren. -/
def c10Tokens : List Token := [⟨TokenType.LeftParen, "", none, 1⟩, numTok 1 "1", eofTok]

/-! ## Claim theorems -/

/-- C1 (code_bug) — the claim says a user-function call builds its scope
enclosing the function's captured closure.  In the staged code: (first
conjunct) `Function::call` never reads the stored closure — two functions
differing only in their closure field behave identically; (second conjunct)
the scope it builds encloses `_interpreter.globals`; (third conjunct) the
spec's closure-counter scenario therefore crashes with no output (undefined
`i` inside `inc`, whose valueless error the call handler then unwraps)
instead of printing 1, 2, 3. -/
theorem c1_call_scope_built_on_globals_not_closure :
    (∀ (fuel : Nat) (st : IState) (id : Token) (params : List Token) (stmts : List Stmt)
        (c1 c2 : Nat) (args : List Object),
      call fuel st (Function.user id params (Stmt.Block stmts) c1) args =
        call fuel st (Function.user id params (Stmt.Block stmts) c2) args) ∧
    (∀ (g : Nat) (params : List Token) (args : List Object),
      ((params.enum).foldl (fun env p => env.define p.2 (args.get? p.1))
          (Environment.new (some g))).enclosing = some g) ∧
    (interpret 100 (Interpreter.new F64.nan) Reporter.new closureCounterProgram).view =
      IView.crashed [] [] false false := by
  refine ⟨fun fuel st id params stmts c1 c2 args => ?_, fun g params args => ?_, rfl⟩
  · cases fuel <;> rfl
  · have aux : ∀ (l : List (Nat × Token)) (env : Environment),
        (l.foldl (fun env p => env.define p.2 (args.get? p.1)) env).enclosing = env.enclosing := by
      intro l
      induction l with
      | nil => intro env; rfl
      | cons p rest ih => intro env; exact ih (env.define p.2 (args.get? p.1))
    exact aux params.enum (Environment.new (some g))

/-- C2 (code_bug) — the call-invocation step turns a return carrier
(`value = Some v`) into the call's result and a normal completion into
`Nil`, but a REAL runtime error (`value = None`) makes the
`Ok(err.value.unwrap())` in `Function::call` PANIC instead of propagating
the error: calling `fun realErr() { y; }` crashes the process. -/
theorem c2_return_carrier_converted_real_error_panics :
    (call 100 (Interpreter.new F64.nan) retOneFn []).view =
      EView.okNumber (F64.finite 1) [] ∧
    (call 100 (Interpreter.new F64.nan) noRetFn []).view = EView.okNil [] ∧
    (call 100 (Interpreter.new F64.nan) realErrFn []).view = EView.panicked [] :=
  ⟨rfl, rfl, rfl⟩

/-- C3 (code_bug) — `Expr::accept` dispatches `visit_grouping_expr(self)`,
handing the visitor the WHOLE grouping node, and `visit_grouping_expr`
evaluates that node again: evaluating `Grouping(e)` never terminates, for
every fuel, even though the inner expression (second conjunct, `Nil`)
evaluates in one step. -/
theorem c3_grouping_evaluation_diverges :
    (∀ (fuel : Nat) (st : IState) (e : Expr),
      evaluate fuel st (Expr.GroupingExpr e) = ERes.fuelOut) ∧
    (evaluate 1 (Interpreter.new F64.nan) (lexpr Literal.nil)).view = EView.okNil [] := by
  refine ⟨fun fuel => ?_, rfl⟩
  induction fuel with
  | zero => intro st e; rfl
  | succ n ih => intro st e; exact ih st e

/-- Tokens the scanner produces for `print 1 + 2;` and for
`print x; print 1;` / `print 1;` (the Eof token carries line 0). -/
def printTok : Token := ⟨TokenType.Print, "", none, 1⟩

def eofTok0 : Token := ⟨TokenType.Eof, "", none, 0⟩

def c4Tokens : List Token := [printTok, numTok 1 "1", plusTok, numTok 2 "2", semiTok, eofTok0]

def c5Tokens : List Token :=
  [printTok, ⟨TokenType.Identifier, "", none, 1⟩, semiTok, printTok, numTok 1 "1", semiTok,
    eofTok0]

def c5CleanTokens : List Token := [printTok, numTok 1 "1", semiTok, eofTok0]

/-- C4 (counterexample) — `print 1 + 2;` writes `Number(3.0)`, not `3`:
`Display for Object` forwards every non-callable value to the derived Debug
formatter.  Stated stage by stage exactly as `Runner::run` composes them:
the scan of the source, the parse of those tokens, and the interpretation of
that statement list. -/
theorem c4_print_formats_via_debug :
    Scanner.scan_tokens (Scanner.new "print 1 + 2;") =
      ScanRes.ok ⟨"print 1 + 2;".data, c4Tokens, Reporter.new, 11, 12, 1⟩ ∧
    Parser.parse 100 (Parser.newState c4Tokens Reporter.new) =
      POut.ok [Stmt.Print (bexpr (numLit 1) plusTok (numLit 2))]
        ⟨c4Tokens, 5, Reporter.new⟩ ∧
    (interpret 100 (Interpreter.new F64.nan) Reporter.new
        [Stmt.Print (bexpr (numLit 1) plusTok (numLit 2))]).view =
      IView.done ["Number(3.0)"] [] false false ∧
    "Number(3.0)" ≠ "3" := ⟨by decide, rfl, rfl, by decide⟩

/-- C4 (amended) — a Print statement appends the evaluated value's
`Display` line to standard output, and that display form is the Debug
rendering for non-callable values (`Number(3.0)`, `Boolean(true)`, `Nil`,
`String("hi")`) while callables render as `<fn NAME>` / `<native fn NAME>`. -/
theorem c4_print_writes_display_line :
    (∀ (fuel : Nat) (st : IState) (e : Expr) (v : Object) (st' : IState),
      evaluate fuel st e = ERes.ok v st' →
      execute (fuel + 1) st (Stmt.Print e) =
        ERes.ok () { st' with stdout := st'.stdout ++ [v.display] }) ∧
    Object.display (.number (F64.finite 3)) = "Number(3.0)" ∧
    Object.display (.boolean true) = "Boolean(true)" ∧
    Object.display (.boolean false) = "Boolean(false)" ∧
    Object.display .nil = "Nil" ∧
    Object.display (.str "hi") = "String(\"hi\")" ∧
    Object.display (.callable (Function.native "clock" 0 .clock)) = "<native fn clock>" ∧
    Object.display (.callable retOneFn) = "<fn retOne>" := by
  refine ⟨fun fuel st e v st' h => ?_, rfl, rfl, rfl, rfl, rfl, rfl, rfl⟩
  simp only [execute, h]

/-- Witness for the hypothesized conjunct of `c4_print_writes_display_line`
at the concrete statement `print 3;`. -/
theorem c4_print_writes_display_line_witness :
    execute 2 (Interpreter.new F64.nan) (Stmt.Print (numLit 3)) =
      ERes.ok () { Interpreter.new F64.nan with
        stdout := (Interpreter.new F64.nan).stdout ++ [(Object.number (F64.finite 3)).display] } :=
  c4_print_writes_display_line.1 1 (Interpreter.new F64.nan) (numLit 3)
    (Object.number (F64.finite 3)) (Interpreter.new F64.nan) rfl

/-- C5 (code_bug) — on the first runtime error the statement is reported,
the sticky runtime flag is set and the remaining statements are skipped, but
the process CRASHES at `interpret`'s `.unwrap()` (Rust panic-abort, status
101) instead of returning to `run_file` and exiting with code 70; a clean
program still exits 0.  (Identifier lexemes are empty because the staged
scanner emits identifiers via `add_token`.) -/
theorem c5_runtime_error_panics_instead_of_exit_70 :
    Scanner.scan_tokens (Scanner.new "print x; print 1;") =
      ScanRes.ok ⟨"print x; print 1;".data, c5Tokens, Reporter.new, 16, 17, 1⟩ ∧
    Parser.parse 100 (Parser.newState c5Tokens Reporter.new) =
      POut.ok [Stmt.Print (vexpr ⟨TokenType.Identifier, "", none, 1⟩), Stmt.Print (numLit 1)]
        ⟨c5Tokens, 6, Reporter.new⟩ ∧
    (interpret 100 (Interpreter.new F64.nan) Reporter.new
        [Stmt.Print (vexpr ⟨TokenType.Identifier, "", none, 1⟩), Stmt.Print (numLit 1)]).view =
      IView.crashed [] ["[line 1] Error at '': Undefined variable ''."] false true ∧
    (interpret 100 (Interpreter.new F64.nan) Reporter.new [Stmt.Print (numLit 1)]).view =
      IView.done ["Number(1.0)"] [] false false ∧
    (∀ (fuel : Nat) (st : IState) (r : Reporter) (stmts : List Stmt) (st' : IState)
        (r' : Reporter),
      interpret fuel st r stmts = IRes.done st' r' → r' = r) := by
  refine ⟨by decide, rfl, rfl, rfl, ?_⟩
  intro fuel
  induction fuel with
  | zero => intro st r stmts st' r' h; exact absurd h (by simp [interpret])
  | succ n ih =>
    intro st r stmts st' r' h
    match stmts with
    | [] =>
      simp only [interpret] at h
      cases h
      rfl
    | s :: rest =>
      simp only [interpret] at h
      revert h
      match execute n st s with
      | .ok _ st2 => exact fun h => ih st2 r rest st' r' h
      | .err e st2 => exact fun h => absurd h (by simp)
      | .panicked st2 => exact fun h => absurd h (by simp)
      | .fuelOut => exact fun h => absurd h (by simp)

/-- Witness for the hypothesized conjunct of
`c5_runtime_error_panics_instead_of_exit_70`: a normally returning
`interpret` hands back its reporter unchanged (so `run_file`'s
`has_runtime_error` check — the exit-70 path — can never fire). -/
theorem c5_runtime_error_panics_instead_of_exit_70_witness :
    Reporter.new = Reporter.new :=
  c5_runtime_error_panics_instead_of_exit_70.2.2.2.2 100 (Interpreter.new F64.nan)
    Reporter.new [Stmt.Print (numLit 1)]
    { Interpreter.new F64.nan with stdout := ["Number(1.0)"] } Reporter.new rfl

/-- C7 (code_bug) — `return_stmt` tests the omitted-value case with
`match_token(vec![Semicolon])`, which CONSUMES the semicolon, and then still
`consume`s a semicolon: plain `return;` fails to parse ("Expect ';' after
return value." at end, no statement produced), while `return 1;` parses to
`Return(keyword, Literal(1))` as the claim states. -/
theorem c7_return_semicolon_consumed_twice :
    Parser.parse 100 (Parser.newState c7ReturnOnly Reporter.new) =
      POut.ok [] ⟨c7ReturnOnly, 2,
        ⟨true, false, ["[line 1] Error  at end: Expect ';' after return value."]⟩⟩ ∧
    Parser.parse 100 (Parser.newState c7ReturnOne Reporter.new) =
      POut.ok [Stmt.Return ⟨TokenType.Return, "", none, 1⟩ (numLit 1)]
        ⟨c7ReturnOne, 3, Reporter.new⟩ := ⟨rfl, rfl⟩

/-- C8 (counterexample) — the claim says an invalid assignment target is
reported but the parser does NOT panic-sync.  In the staged code
`assignment` RETURNS the `ParseError` (first conjunct), so `parse()`'s
handler reports it and synchronizes like any other failure: on
`1 = 2 3 var x;` the `3` token is silently discarded by synchronization
(second conjunct: one reported error, and only the `var x;` statement
survives). -/
theorem c8_invalid_target_error_propagates_to_sync :
    Parser.assignment 100 (Parser.newState c8AssignTokens Reporter.new) =
      POut.err ⟨equalTok, "Invalid assignment target."⟩ ⟨c8AssignTokens, 3, Reporter.new⟩ ∧
    Parser.parse 100 (Parser.newState c8SyncTokens Reporter.new) =
      POut.ok [Stmt.VarDeclaration ⟨TokenType.Identifier, "x", none, 1⟩ none]
        ⟨c8SyncTokens, 7,
          ⟨true, false, ["[line 1] Error at '=': Invalid assignment target."]⟩⟩ :=
  ⟨rfl, rfl⟩

/-- C8 (amended) — whenever the left-hand side parsed by `or` is not a
`Variable` expression and an `=` follows, `assignment` returns the
invalid-assignment-target `ParseError` (carrying the `=` token) to its
caller — so `parse()` reports it and runs panic-mode synchronization like
every other grammar failure, rather than continuing in place. -/
theorem c8_invalid_target_returns_parse_error
    (fuel : Nat) (st st1 st2 st3 : PState) (expr value : Expr) (equals : Token)
    (h1 : Parser.orRule fuel st = POut.ok expr st1)
    (h2 : Parser.match_token st1 [TokenType.Equal] = some (true, st2))
    (h3 : Parser.previous st2 = some equals)
    (h4 : Parser.assignment fuel st2 = POut.ok value st3)
    (h5 : ∀ t, expr ≠ Expr.VariableExpr t) :
    Parser.assignment (fuel + 1) st =
      POut.err ⟨equals, "Invalid assignment target."⟩ st3 := by
  cases expr <;>
    first
      | exact absurd rfl (h5 _)
      | simp only [Parser.assignment, h1, Parser.pbind, h2, Parser.obind, if_true, h3, h4]

/-- Witness for `c8_invalid_target_returns_parse_error` on the concrete
tokens of `1 = 2;`. -/
theorem c8_invalid_target_returns_parse_error_witness :
    Parser.assignment 100 (Parser.newState c8AssignTokens Reporter.new) =
      POut.err ⟨equalTok, "Invalid assignment target."⟩ ⟨c8AssignTokens, 3, Reporter.new⟩ :=
  c8_invalid_target_returns_parse_error 99 (Parser.newState c8AssignTokens Reporter.new)
    ⟨c8AssignTokens, 1, Reporter.new⟩ ⟨c8AssignTokens, 2, Reporter.new⟩
    ⟨c8AssignTokens, 3, Reporter.new⟩ (numLit 1) (numLit 2) equalTok
    rfl rfl rfl rfl (fun _ h => Expr.noConfusion h)

/-- C9 (counterexample) — runtime equality is NOT reflexive on every
non-NaN value: a callable compared with itself falls into the `_ => false`
catch-all of `PartialEq for Object` (and a callable is not a number, so the
NaN exception does not cover it). -/
theorem c9_callable_not_reflexive :
    Object.eq (Object.callable (Function.native "clock" 0 .clock))
      (Object.callable (Function.native "clock" 0 .clock)) = false ∧
    (∀ n : F64, Object.callable (Function.native "clock" 0 .clock) ≠ Object.number n) :=
  ⟨rfl, fun _ h => Object.noConfusion h⟩

/-- C9 (amended) — `==`/`!=` never raise (the evaluator wraps `Object::eq`'s
Boolean straight into a value); equality is reflexive on every NON-CALLABLE
value except `Number(NaN)`; two `Nil`s are equal; values of differing kinds
compare `false`; callables always compare `false`, even with themselves;
`NaN == NaN` is `false`. -/
theorem c9_equality_semantics :
    (∀ (fuel : Nat) (st st1 st2 : IState) (l r : Expr) (lv rv : Object) (op : Token),
      op.token_type = TokenType.EqualEqual →
      evaluate fuel st l = ERes.ok lv st1 →
      evaluate fuel st1 r = ERes.ok rv st2 →
      evaluate (fuel + 1) st (bexpr l op r) = ERes.ok (.boolean (Object.eq lv rv)) st2) ∧
    (∀ (fuel : Nat) (st st1 st2 : IState) (l r : Expr) (lv rv : Object) (op : Token),
      op.token_type = TokenType.BangEqual →
      evaluate fuel st l = ERes.ok lv st1 →
      evaluate fuel st1 r = ERes.ok rv st2 →
      evaluate (fuel + 1) st (bexpr l op r) = ERes.ok (.boolean (!Object.eq lv rv)) st2) ∧
    (∀ o : Object, (∀ f, o ≠ Object.callable f) → o ≠ Object.number F64.nan →
      Object.eq o o = true) ∧
    Object.eq Object.nil Object.nil = true ∧
    (∀ a b : Object, a.kind ≠ b.kind → Object.eq a b = false) ∧
    (∀ f g : Function, Object.eq (Object.callable f) (Object.callable g) = false) ∧
    Object.eq (Object.number F64.nan) (Object.number F64.nan) = false := by
  refine ⟨?_, ?_, ?_, rfl, ?_, fun f g => rfl, rfl⟩
  · intro fuel st st1 st2 l r lv rv op hop h1 h2
    simp only [bexpr, evaluate, h1, h2, binary_op, hop]
  · intro fuel st st1 st2 l r lv rv op hop h1 h2
    simp only [bexpr, evaluate, h1, h2, binary_op, hop]
  · intro o hcall hnan
    match o with
    | .number n =>
      match n with
      | .finite q => simp [Object.eq, F64.ieeeEq]
      | .inf => rfl
      | .neginf => rfl
      | .nan => exact absurd rfl hnan
    | .str s => simp [Object.eq]
    | .boolean b => simp [Object.eq]
    | .callable f => exact absurd rfl (hcall f)
    | .nil => rfl
  · intro a b h
    cases a <;> cases b <;> first | rfl | exact absurd rfl h

/-- Witness for the hypothesized conjuncts of `c9_equality_semantics` at
concrete inputs (`1 == 1`, `1 != 1`, reflexivity at `"a"`, cross-kind at
`1` vs `nil`). -/
theorem c9_equality_semantics_witness :
    evaluate 2 (Interpreter.new F64.nan) (bexpr (numLit 1) eqeqTok (numLit 1)) =
      ERes.ok (.boolean (Object.eq (.number (F64.finite 1)) (.number (F64.finite 1))))
        (Interpreter.new F64.nan) ∧
    evaluate 2 (Interpreter.new F64.nan) (bexpr (numLit 1) bangeqTok (numLit 1)) =
      ERes.ok (.boolean (!Object.eq (.number (F64.finite 1)) (.number (F64.finite 1))))
        (Interpreter.new F64.nan) ∧
    Object.eq (Object.str "a") (Object.str "a") = true ∧
    Object.eq (Object.number (F64.finite 1)) Object.nil = false :=
  ⟨c9_equality_semantics.1 1 _ _ _ _ _ _ _ _ rfl rfl rfl,
    c9_equality_semantics.2.1 1 _ _ _ _ _ _ _ _ rfl rfl rfl,
    c9_equality_semantics.2.2.1 (Object.str "a") (fun _ h => Object.noConfusion h)
      (fun h => Object.noConfusion h),
    c9_equality_semantics.2.2.2.2.1 (Object.number (F64.finite 1)) Object.nil (by decide)⟩

/-- C10 (counterexample) — `parse()` is NOT total on Eof-terminated token
lists: on the tokens of `(1` (no closing paren) the `primary` production
`unwrap`s the failed `consume` and the parser PANICS. -/
theorem c10_parse_panics_on_missing_rparen :
    Parser.parse 100 (Parser.newState c10Tokens Reporter.new) = POut.panicked := rfl

/-- C10 (amended) — `parse()`'s loop surfaces every grammar failure by
reporting the `ParseError` and running synchronization (first conjunct),
EXCEPT that a parenthesized expression lacking its `)` makes `primary`
panic on the `unwrap` instead of returning the error (second conjunct). -/
theorem c10_errors_reported_and_synced_except_paren_unwrap :
    (∀ (fuel : Nat) (st : PState) (acc : List Stmt) (e : ParseError) (st' : PState),
      Parser.is_at_end st = some false →
      Parser.declaration fuel st = POut.err e st' →
      Parser.parse_loop (fuel + 1) st acc =
        (match Parser.synchronize fuel (Parser.error st' e.token e.message) with
          | .ok _ st2 => Parser.parse_loop fuel st2 acc
          | .err _ _ => POut.panicked
          | .panicked => POut.panicked
          | .fuelOut => POut.fuelOut)) ∧
    (∀ (fuel : Nat) (st st1 st2 st3 : PState) (prev : Token) (e : Expr) (pe : ParseError),
      Parser.match_token st
          [TokenType.True, TokenType.False, TokenType.Nil, TokenType.NumberTok,
            TokenType.StringTok, TokenType.LeftParen, TokenType.Identifier] =
        some (true, st1) →
      Parser.previous st1 = some prev →
      prev.token_type = TokenType.LeftParen →
      Parser.expression fuel st1 = POut.ok e st2 →
      Parser.consume st2 TokenType.RightParen "Expect ')' after expression." =
        POut.err pe st3 →
      Parser.primary (fuel + 1) st = POut.panicked) := by
  constructor
  · intro fuel st acc e st' hend hdecl
    simp only [Parser.parse_loop, Parser.obind, hend, hdecl]
    rfl
  · intro fuel st st1 st2 st3 prev e pe hm hp hlp he hc
    simp only [Parser.primary, Parser.obind, hm, if_true, hp, hlp, Parser.pbind, he, hc]

/-- Witness for `c10_errors_reported_and_synced_except_paren_unwrap` at
concrete inputs: the failing declaration `var 1;` is reported and synced,
and `primary` on the tokens of `(1` panics. -/
theorem c10_errors_reported_and_synced_except_paren_unwrap_witness :
    (Parser.parse_loop 100
        (Parser.newState [⟨TokenType.Var, "", none, 1⟩, numTok 1 "1", semiTok, eofTok]
          Reporter.new) [] =
      (match Parser.synchronize 99
          (Parser.error
            ⟨[⟨TokenType.Var, "", none, 1⟩, numTok 1 "1", semiTok, eofTok], 1, Reporter.new⟩
            (numTok 1 "1") "Expect variable name.") with
        | .ok _ st2 => Parser.parse_loop 99 st2 []
        | .err _ _ => POut.panicked
        | .panicked => POut.panicked
        | .fuelOut => POut.fuelOut)) ∧
    Parser.primary 100 (Parser.newState c10Tokens Reporter.new) = POut.panicked :=
  ⟨c10_errors_reported_and_synced_except_paren_unwrap.1 99
      (Parser.newState [⟨TokenType.Var, "", none, 1⟩, numTok 1 "1", semiTok, eofTok]
        Reporter.new)
      [] ⟨numTok 1 "1", "Expect variable name."⟩
      ⟨[⟨TokenType.Var, "", none, 1⟩, numTok 1 "1", semiTok, eofTok], 1, Reporter.new⟩
      rfl rfl,
    c10_errors_reported_and_synced_except_paren_unwrap.2 99
      (Parser.newState c10Tokens Reporter.new)
      ⟨c10Tokens, 1, Reporter.new⟩ ⟨c10Tokens, 2, Reporter.new⟩ ⟨c10Tokens, 2, Reporter.new⟩
      ⟨TokenType.LeftParen, "", none, 1⟩ (numLit 1) ⟨eofTok, "Expect ')' after expression."⟩
      rfl rfl rfl rfl rfl⟩

/-! ## Scanner termination lemmas (claim C6)

Every scanner routine advances `_current` by at least one per loop iteration
while leaving the source untouched, so fuel `srcBytes source + 1` always
suffices: `scan_tokens` can never run out of fuel (the Rust loops always
terminate), and every non-panicking run ends by pushing the Eof token with
line field 0. -/
namespace Scanner

theorem string_loop_mono : ∀ (fuel : Nat) (s : Scanner) (d : Char) (s' : Scanner),
    string_loop fuel s d = .ok s' → s'.source = s.source ∧ s.current ≤ s'.current := by
  intro fuel
  induction fuel with
  | zero => intro s d s' h; exact absurd h (by simp [string_loop])
  | succ n ih =>
    intro s d s' h
    rw [string_loop] at h
    revert h
    cases hp : s.peek with
    | none => intro h; exact absurd h (by simp)
    | some c =>
      simp only []
      split
      · intro h
        rcases ih _ d s' h with ⟨h1, h2⟩
        constructor
        · rw [h1]; split <;> rfl
        · refine le_trans ?_ h2
          split <;> exact Nat.le_succ _
      · intro h
        cases h
        exact ⟨rfl, le_refl _⟩

theorem string_loop_noFuel : ∀ (fuel : Nat) (s : Scanner) (d : Char),
    srcBytes s.source - s.current < fuel → string_loop fuel s d ≠ .fuelOut := by
  intro fuel
  induction fuel with
  | zero => intro s d h; omega
  | succ n ih =>
    intro s d h
    rw [string_loop]
    cases hp : s.peek with
    | none => simp
    | some c =>
      simp only []
      split
      · rename_i hcond
        have hne : !s.is_at_end := (Bool.and_eq_true _ _ |>.mp hcond).2
        have hlt : s.current < srcBytes s.source := by
          simp [is_at_end] at hne
          omega
        apply ih
        have hsrc : ((if c = '\n' then { s with line := s.line + 1 } else s).advance).2.source
            = s.source := by
          split <;> rfl
        have hcur : ((if c = '\n' then { s with line := s.line + 1 } else s).advance).2.current
            = s.current + 1 := by
          split <;> rfl
        rw [hsrc, hcur]
        omega
      · simp

theorem digits_loop_mono : ∀ (fuel : Nat) (s : Scanner) (s' : Scanner),
    digits_loop fuel s = .ok s' → s'.source = s.source ∧ s.current ≤ s'.current := by
  intro fuel
  induction fuel with
  | zero => intro s s' h; exact absurd h (by simp [digits_loop])
  | succ n ih =>
    intro s s' h
    rw [digits_loop] at h
    revert h
    cases hp : s.peek with
    | none => intro h; exact absurd h (by simp)
    | some c =>
      simp only []
      split
      · intro h
        rcases ih _ s' h with ⟨h1, h2⟩
        exact ⟨h1, le_trans (Nat.le_succ _) h2⟩
      · intro h
        cases h
        exact ⟨rfl, le_refl _⟩

theorem digits_loop_noFuel : ∀ (fuel : Nat) (s : Scanner),
    srcBytes s.source - s.current < fuel → digits_loop fuel s ≠ .fuelOut := by
  intro fuel
  induction fuel with
  | zero => intro s h; omega
  | succ n ih =>
    intro s h
    rw [digits_loop]
    cases hp : s.peek with
    | none => simp
    | some c =>
      simp only []
      split
      · rename_i hcond
        have hlt : s.current < srcBytes s.source := by
          by_contra hge
          have hend : s.is_at_end = true := by
            simp only [is_at_end, ge_iff_le, decide_eq_true_eq]
            omega
          rw [peek, if_pos hend] at hp
          cases hp
          exact absurd hcond (by decide)
        apply ih
        show srcBytes s.source - (s.current + 1) < n
        omega
      · simp

theorem ident_loop_mono : ∀ (fuel : Nat) (s : Scanner) (s' : Scanner),
    ident_loop fuel s = .ok s' → s'.source = s.source ∧ s.current ≤ s'.current := by
  intro fuel
  induction fuel with
  | zero => intro s s' h; exact absurd h (by simp [ident_loop])
  | succ n ih =>
    intro s s' h
    rw [ident_loop] at h
    revert h
    cases hp : s.peek with
    | none => intro h; exact absurd h (by simp)
    | some c =>
      simp only []
      split
      · intro h
        rcases ih _ s' h with ⟨h1, h2⟩
        exact ⟨h1, le_trans (Nat.le_succ _) h2⟩
      · intro h
        cases h
        exact ⟨rfl, le_refl _⟩

theorem ident_loop_noFuel : ∀ (fuel : Nat) (s : Scanner),
    srcBytes s.source - s.current < fuel → ident_loop fuel s ≠ .fuelOut := by
  intro fuel
  induction fuel with
  | zero => intro s h; omega
  | succ n ih =>
    intro s h
    rw [ident_loop]
    cases hp : s.peek with
    | none => simp
    | some c =>
      simp only []
      split
      · rename_i hcond
        have hlt : s.current < srcBytes s.source := by
          by_contra hge
          have hend : s.is_at_end = true := by
            simp only [is_at_end, ge_iff_le, decide_eq_true_eq]
            omega
          rw [peek, if_pos hend] at hp
          cases hp
          exact absurd hcond (by decide)
        apply ih
        show srcBytes s.source - (s.current + 1) < n
        omega
      · simp

theorem comment_loop_noFuel : ∀ (fuel : Nat) (s : Scanner),
    srcBytes s.source - s.current < fuel → comment_loop fuel s ≠ .fuelOut := by
  intro fuel
  induction fuel with
  | zero => intro s h; omega
  | succ n ih =>
    intro s h
    rw [comment_loop]
    cases hp : s.peek with
    | none => simp
    | some c =>
      simp only []
      split
      · rename_i hcond
        have hne : !s.is_at_end := (Bool.and_eq_true _ _ |>.mp hcond).2
        have hlt : s.current < srcBytes s.source := by
          simp [is_at_end] at hne
          omega
        apply ih
        show srcBytes s.source - (s.current + 1) < n
        omega
      · simp

theorem match_char_mono (s : Scanner) (e : Char) :
    ((s.match_char e).2).source = s.source ∧ s.current ≤ ((s.match_char e).2).current ∧
      ((s.match_char e).2).current ≤ s.current + 1 := by
  rw [match_char]
  split
  · exact ⟨rfl, le_refl _, Nat.le_succ _⟩
  · split
    · split
      · exact ⟨rfl, Nat.le_succ _, le_refl _⟩
      · exact ⟨rfl, le_refl _, Nat.le_succ _⟩
    · exact ⟨rfl, le_refl _, Nat.le_succ _⟩

theorem comment_loop_mono : ∀ (fuel : Nat) (s : Scanner) (s' : Scanner),
    comment_loop fuel s = .ok s' → s'.source = s.source ∧ s.current ≤ s'.current := by
  intro fuel
  induction fuel with
  | zero => intro s s' h; exact absurd h (by simp [comment_loop])
  | succ n ih =>
    intro s s' h
    rw [comment_loop] at h
    revert h
    cases hp : s.peek with
    | none => intro h; exact absurd h (by simp)
    | some c =>
      simp only []
      split
      · intro h
        rcases ih _ s' h with ⟨h1, h2⟩
        exact ⟨h1, le_trans (Nat.le_succ _) h2⟩
      · intro h
        cases h
        exact ⟨rfl, le_refl _⟩

theorem scan_string_mono (fuel : Nat) (s : Scanner) (d : Char) (s' : Scanner)
    (h : scan_string fuel s d = .ok s') :
    s'.source = s.source ∧ s.current ≤ s'.current := by
  rw [scan_string] at h
  revert h
  cases hr : string_loop fuel s d with
  | fuelOut => intro h; exact absurd h (by simp)
  | panicked => intro h; exact absurd h (by simp)
  | ok s1 =>
    rcases string_loop_mono fuel s d s1 hr with ⟨h1, h2⟩
    simp only []
    split
    · intro h
      cases h
      exact ⟨h1, h2⟩
    · cases hs : sliceBytes ((s1.advance).2).source (((s1.advance).2).start + 1)
          (((s1.advance).2).current - 1) with
      | none => intro h; exact absurd h (by simp)
      | some v =>
        simp only []
        cases ha : ((s1.advance).2).add_token_literal TokenType.StringTok
            (some (Literal.str v)) with
        | none => intro h; exact absurd h (by simp)
        | some s2 =>
          intro h
          cases h
          rw [add_token_literal] at ha
          revert ha
          cases hs2 : sliceBytes ((s1.advance).2).source ((s1.advance).2).start
              ((s1.advance).2).current with
          | none => intro ha; exact absurd ha (by simp)
          | some lx =>
            intro ha
            cases ha
            exact ⟨h1, le_trans h2 (Nat.le_succ _)⟩

theorem scan_string_noFuel (fuel : Nat) (s : Scanner) (d : Char)
    (h : srcBytes s.source - s.current < fuel) : scan_string fuel s d ≠ .fuelOut := by
  rw [scan_string]
  cases hr : string_loop fuel s d with
  | fuelOut => exact absurd hr (string_loop_noFuel fuel s d h)
  | panicked => simp
  | ok s1 =>
    simp only []
    split
    · simp
    · cases hs : sliceBytes ((s1.advance).2).source (((s1.advance).2).start + 1)
          (((s1.advance).2).current - 1) with
      | none => simp
      | some v =>
        simp only []
        cases ha : ((s1.advance).2).add_token_literal TokenType.StringTok
            (some (Literal.str v)) with
        | none => simp
        | some s2 => simp

theorem scan_number_mono (fuel : Nat) (s : Scanner) (s' : Scanner)
    (h : scan_number fuel s = .ok s') :
    s'.source = s.source ∧ s.current ≤ s'.current := by
  rw [scan_number] at h
  revert h
  cases hr : digits_loop fuel s with
  | fuelOut => intro h; exact absurd h (by simp)
  | panicked => intro h; exact absurd h (by simp)
  | ok s1 =>
    rcases digits_loop_mono fuel s s1 hr with ⟨h1, h2⟩
    simp only []
    cases hp1 : s1.peek with
    | none => intro h; exact absurd h (by simp)
    | some c =>
      cases hp2 : s1.peek_next with
      | none => intro h; exact absurd h (by simp)
      | some c2 =>
        simp only []
        cases hfr : (if c = '.' && charIsNumeric c2 then digits_loop fuel ((s1.advance).2)
            else ScanRes.ok s1) with
        | fuelOut => intro h; exact absurd h (by simp)
        | panicked => intro h; exact absurd h (by simp)
        | ok s2 =>
          have hm2 : s2.source = s1.source ∧ s1.current ≤ s2.current := by
            revert hfr
            split
            · intro hfr
              rcases digits_loop_mono fuel _ s2 hfr with ⟨ha, hb⟩
              exact ⟨ha, le_trans (Nat.le_succ _) hb⟩
            · intro hfr
              cases hfr
              exact ⟨rfl, le_refl _⟩
          simp only []
          cases hs : sliceBytes s2.source s2.start s2.current with
          | none => intro h; exact absurd h (by simp)
          | some lx =>
            simp only []
            cases hq : parseF64 lx with
            | none => intro h; exact absurd h (by simp)
            | some q =>
              simp only []
              cases ha : s2.add_token_literal TokenType.NumberTok
                  (some (Literal.num (F64.finite q))) with
              | none => intro h; exact absurd h (by simp)
              | some s3 =>
                intro h
                cases h
                rw [add_token_literal] at ha
                revert ha
                cases hs2 : sliceBytes s2.source s2.start s2.current with
                | none => intro ha; exact absurd ha (by simp)
                | some lx2 =>
                  intro ha
                  cases ha
                  exact ⟨hm2.1.trans h1, le_trans h2 hm2.2⟩

theorem scan_number_noFuel (fuel : Nat) (s : Scanner)
    (h : srcBytes s.source - s.current < fuel) : scan_number fuel s ≠ .fuelOut := by
  rw [scan_number]
  cases hr : digits_loop fuel s with
  | fuelOut => exact absurd hr (digits_loop_noFuel fuel s h)
  | panicked => simp
  | ok s1 =>
    rcases digits_loop_mono fuel s s1 hr with ⟨h1, h2⟩
    simp only []
    cases hp1 : s1.peek with
    | none => simp
    | some c =>
      cases hp2 : s1.peek_next with
      | none => simp
      | some c2 =>
        simp only []
        cases hfr : (if c = '.' && charIsNumeric c2 then digits_loop fuel ((s1.advance).2)
            else ScanRes.ok s1) with
        | fuelOut =>
          exfalso
          revert hfr
          split
          · intro hfr
            refine absurd hfr (digits_loop_noFuel fuel _ ?_)
            show srcBytes s1.source - (s1.current + 1) < fuel
            rw [h1]
            omega
          · simp
        | panicked => simp
        | ok s2 =>
          simp only []
          split
          · simp
          · split
            · simp
            · split <;> simp

theorem scan_identifier_mono (fuel : Nat) (s : Scanner) (s' : Scanner)
    (h : scan_identifier fuel s = .ok s') :
    s'.source = s.source ∧ s.current ≤ s'.current := by
  rw [scan_identifier] at h
  revert h
  cases hr : ident_loop fuel s with
  | fuelOut => intro h; exact absurd h (by simp)
  | panicked => intro h; exact absurd h (by simp)
  | ok s1 =>
    rcases ident_loop_mono fuel s s1 hr with ⟨h1, h2⟩
    simp only []
    cases hs : sliceBytes s1.source s1.start s1.current with
    | none => intro h; exact absurd h (by simp)
    | some text =>
      intro h
      cases h
      exact ⟨h1, h2⟩

theorem scan_identifier_noFuel (fuel : Nat) (s : Scanner)
    (h : srcBytes s.source - s.current < fuel) : scan_identifier fuel s ≠ .fuelOut := by
  rw [scan_identifier]
  cases hr : ident_loop fuel s with
  | fuelOut => exact absurd hr (ident_loop_noFuel fuel s h)
  | panicked => simp
  | ok s1 =>
    simp only []
    split <;> simp

theorem scan_token_ok_mono (fuel : Nat) (s s' : Scanner) (h : scan_token fuel s = .ok s') :
    s'.source = s.source ∧ s.current < s'.current := by
  rw [scan_token] at h
  rcases hadv : s.advance with ⟨char, s2⟩
  rw [hadv] at h
  rw [advance] at hadv
  injection hadv with hchar hs2
  subst hchar
  subst hs2
  simp only [] at h
  revert h
  cases hc : s.source.get? s.current with
  | none => intro h; cases h; exact ⟨rfl, Nat.lt_succ_self _⟩
  | some c =>
    intro h
    split at h
    -- ten single-char token arms
    iterate 10 { cases h; exact ⟨rfl, Nat.lt_succ_self _⟩ }
    -- '!' '=' '<' '>' arms: match_char then add_token
    iterate 4 {
      split at h <;>
        { cases h
          have hm := match_char_mono
            { source := s.source, tokens := s.tokens, reporter := s.reporter, start := s.start,
              current := s.current + 1, line := s.line } '='
          exact ⟨hm.1, Nat.lt_of_lt_of_le (Nat.lt_succ_self _) hm.2.1⟩ } }
    -- ' ' '\r' '\t' '\n' arms
    iterate 4 { cases h; exact ⟨rfl, Nat.lt_succ_self _⟩ }
    -- '/' arm
    · have hm := match_char_mono
        { source := s.source, tokens := s.tokens, reporter := s.reporter, start := s.start,
          current := s.current + 1, line := s.line } '/'
      split at h
      · rcases comment_loop_mono fuel _ s' h with ⟨h1, h2⟩
        exact ⟨h1.trans hm.1,
          Nat.lt_of_lt_of_le (Nat.lt_succ_self _) (le_trans hm.2.1 h2)⟩
      · cases h
        exact ⟨hm.1, Nat.lt_of_lt_of_le (Nat.lt_succ_self _) hm.2.1⟩
    -- '"' and '\'' arms
    · rcases scan_string_mono fuel _ _ s' h with ⟨h1, h2⟩
      exact ⟨h1, Nat.lt_of_lt_of_le (Nat.lt_succ_self _) h2⟩
    · rcases scan_string_mono fuel _ _ s' h with ⟨h1, h2⟩
      exact ⟨h1, Nat.lt_of_lt_of_le (Nat.lt_succ_self _) h2⟩
    -- the None (end of vector) arm
    · cases h; exact ⟨rfl, Nat.lt_succ_self _⟩
    -- default arm
    · split at h
      · rcases scan_number_mono fuel _ s' h with ⟨h1, h2⟩
        exact ⟨h1, Nat.lt_of_lt_of_le (Nat.lt_succ_self _) h2⟩
      · split at h
        · rcases scan_identifier_mono fuel _ s' h with ⟨h1, h2⟩
          exact ⟨h1, Nat.lt_of_lt_of_le (Nat.lt_succ_self _) h2⟩
        · cases h
          exact ⟨rfl, Nat.lt_succ_self _⟩

theorem scan_token_noFuel (fuel : Nat) (s : Scanner)
    (hf : srcBytes s.source - s.current ≤ fuel) (hcur : s.current < srcBytes s.source) :
    scan_token fuel s ≠ .fuelOut := by
  rw [scan_token]
  rcases hadv : s.advance with ⟨char, s2⟩
  rw [advance] at hadv
  injection hadv with hchar hs2
  subst hchar
  subst hs2
  simp only []
  cases hc : s.source.get? s.current with
  | none => simp
  | some c =>
    split
    iterate 10 simp
    iterate 4 { split <;> simp }
    iterate 4 simp
    -- '/' arm
    · have hm := match_char_mono
        { source := s.source, tokens := s.tokens, reporter := s.reporter, start := s.start,
          current := s.current + 1, line := s.line } '/'
      split
      · refine comment_loop_noFuel fuel _ ?_
        have h1 : _ = s.source := hm.1
        have h2 : s.current + 1 ≤ _ := hm.2.1
        rw [h1]
        omega
      · simp
    -- '"' and '\'' arms
    · refine scan_string_noFuel fuel _ _ ?_
      show srcBytes s.source - (s.current + 1) < fuel
      omega
    · refine scan_string_noFuel fuel _ _ ?_
      show srcBytes s.source - (s.current + 1) < fuel
      omega
    -- None arm
    · simp
    -- default arm
    · split
      · refine scan_number_noFuel fuel _ ?_
        show srcBytes s.source - (s.current + 1) < fuel
        omega
      · split
        · refine scan_identifier_noFuel fuel _ ?_
          show srcBytes s.source - (s.current + 1) < fuel
          omega
        · simp

theorem scan_loop_noFuel : ∀ (fuel : Nat) (s : Scanner),
    srcBytes s.source - s.current < fuel → scan_loop fuel s ≠ .fuelOut := by
  intro fuel
  induction fuel with
  | zero => intro s h; omega
  | succ n ih =>
    intro s h
    rw [scan_loop]
    split
    · simp
    · rename_i hend
      have hcur : s.current < srcBytes s.source := by
        simp only [is_at_end, ge_iff_le, decide_eq_true_eq] at hend
        omega
      cases hr : scan_token n { s with start := s.current } with
      | panicked => simp
      | fuelOut =>
        refine absurd hr (scan_token_noFuel n { s with start := s.current } ?_ hcur)
        have hb : srcBytes s.source - s.current ≤ n := by omega
        exact hb
      | ok s3 =>
        rcases scan_token_ok_mono n { s with start := s.current } s3 hr with ⟨h1, h2⟩
        have h1' : s3.source = s.source := h1
        have h2' : s.current < s3.current := h2
        exact ih s3 (by rw [h1']; omega)

/-- All characters of the source are single-byte (ASCII) in UTF-8. -/
def AsciiL (cs : List Char) : Prop := ∀ c ∈ cs, c.utf8Size = 1

theorem srcBytes_eq_length (cs : List Char) (h : AsciiL cs) : srcBytes cs = cs.length := by
  induction cs with
  | nil => rfl
  | cons c rest ih =>
    have hc : c.utf8Size = 1 := h c (List.mem_cons_self c rest)
    have hrest : AsciiL rest := fun x hx => h x (List.mem_cons_of_mem c hx)
    show ((c :: rest).map Char.utf8Size).sum = (c :: rest).length
    rw [List.map_cons, List.sum_cons, hc, List.length_cons]
    rw [show (rest.map Char.utf8Size).sum = srcBytes rest from rfl, ih hrest]
    omega

theorem dropBytes_ascii (cs : List Char) (h : AsciiL cs) :
    ∀ a, a ≤ cs.length → dropBytes cs a = some (cs.drop a) := by
  induction cs with
  | nil =>
    intro a ha
    have : a = 0 := by simpa using ha
    subst this
    rfl
  | cons c rest ih =>
    intro a ha
    match a with
    | 0 => rfl
    | a + 1 =>
      have hc : c.utf8Size = 1 := h c (List.mem_cons_self c rest)
      have hrest : AsciiL rest := fun x hx => h x (List.mem_cons_of_mem c hx)
      rw [dropBytes]
      rw [if_pos (by omega)]
      rw [hc]
      have : a + 1 - 1 = a := by omega
      rw [this]
      simp at ha
      exact ih hrest a (by omega)

theorem takeBytes_ascii (cs : List Char) (h : AsciiL cs) :
    ∀ n, n ≤ cs.length → takeBytes cs n = some (cs.take n) := by
  induction cs with
  | nil =>
    intro n hn
    have : n = 0 := by simpa using hn
    subst this
    rfl
  | cons c rest ih =>
    intro n hn
    match n with
    | 0 => rfl
    | n + 1 =>
      have hc : c.utf8Size = 1 := h c (List.mem_cons_self c rest)
      have hrest : AsciiL rest := fun x hx => h x (List.mem_cons_of_mem c hx)
      rw [takeBytes]
      rw [if_pos (by omega)]
      rw [hc]
      have : n + 1 - 1 = n := by omega
      rw [this]
      simp at hn
      rw [ih hrest n (by omega)]
      rfl

theorem sliceBytes_ascii (cs : List Char) (h : AsciiL cs) (a b : Nat) (hab : a ≤ b)
    (hb : b ≤ cs.length) :
    sliceBytes cs a b = some (String.mk ((cs.drop a).take (b - a))) := by
  rw [sliceBytes, if_pos hab]
  rw [dropBytes_ascii cs h a (le_trans hab hb)]
  have hdrop : AsciiL (cs.drop a) := fun x hx => h x (List.mem_of_mem_drop hx)
  rw [Option.some_bind]
  rw [takeBytes_ascii (cs.drop a) hdrop (b - a) (by simp; omega)]
  rfl

theorem peek_ne_none (s : Scanner) (h : AsciiL s.source) : s.peek ≠ none := by
  rw [peek]
  split
  · simp
  · rename_i hend
    simp only [is_at_end, ge_iff_le, decide_eq_true_eq] at hend
    rw [srcBytes_eq_length s.source h] at hend
    rw [Ne, List.get?_eq_none]
    omega

theorem string_loop_noPanic : ∀ (fuel : Nat) (s : Scanner) (d : Char),
    AsciiL s.source → string_loop fuel s d ≠ .panicked := by
  intro fuel
  induction fuel with
  | zero => intro s d _; simp [string_loop]
  | succ n ih =>
    intro s d h
    rw [string_loop]
    cases hp : s.peek with
    | none => exact absurd hp (peek_ne_none s h)
    | some c =>
      simp only []
      split
      · refine ih _ d ?_
        show AsciiL ((if c = '\n' then { s with line := s.line + 1 } else s).advance).2.source
        split <;> exact h
      · simp

theorem string_loop_le : ∀ (fuel : Nat) (s : Scanner) (d : Char) (s' : Scanner),
    AsciiL s.source → s.current ≤ s.source.length → string_loop fuel s d = .ok s' →
    s'.current ≤ s'.source.length := by
  intro fuel
  induction fuel with
  | zero => intro s d s' _ _ h; exact absurd h (by simp [string_loop])
  | succ n ih =>
    intro s d s' h hle hh
    rw [string_loop] at hh
    revert hh
    cases hp : s.peek with
    | none => intro hh; exact absurd hh (by simp)
    | some c =>
      simp only []
      split
      · rename_i hcond
        intro hh
        have hne : !s.is_at_end := (Bool.and_eq_true _ _ |>.mp hcond).2
        have hlt : s.current < s.source.length := by
          have h1 : s.is_at_end = false := by
            cases he : s.is_at_end
            · rfl
            · rw [he] at hne; exact absurd hne (by decide)
          have h2 : ¬ s.current ≥ srcBytes s.source := by simpa [is_at_end] using h1
          rw [srcBytes_eq_length s.source h] at h2
          omega
        refine ih _ d s' ?_ ?_ hh
        · show AsciiL ((if c = '\n' then { s with line := s.line + 1 } else s).advance).2.source
          split <;> exact h
        · show ((if c = '\n' then { s with line := s.line + 1 } else s).advance).2.current ≤
            ((if c = '\n' then { s with line := s.line + 1 } else s).advance).2.source.length
          split
          · show s.current + 1 ≤ s.source.length
            omega
          · show s.current + 1 ≤ s.source.length
            omega
      · intro hh
        cases hh
        exact hle

theorem digits_loop_noPanic : ∀ (fuel : Nat) (s : Scanner),
    AsciiL s.source → digits_loop fuel s ≠ .panicked := by
  intro fuel
  induction fuel with
  | zero => intro s _; simp [digits_loop]
  | succ n ih =>
    intro s h
    rw [digits_loop]
    cases hp : s.peek with
    | none => exact absurd hp (peek_ne_none s h)
    | some c =>
      simp only []
      split
      · exact ih _ h
      · simp

theorem digits_loop_le : ∀ (fuel : Nat) (s : Scanner) (s' : Scanner),
    AsciiL s.source → s.current ≤ s.source.length → digits_loop fuel s = .ok s' →
    s'.current ≤ s'.source.length := by
  intro fuel
  induction fuel with
  | zero => intro s s' _ _ h; exact absurd h (by simp [digits_loop])
  | succ n ih =>
    intro s s' h hle hh
    rw [digits_loop] at hh
    revert hh
    cases hp : s.peek with
    | none => intro hh; exact absurd hh (by simp)
    | some c =>
      simp only []
      split
      · rename_i hcond
        intro hh
        have hlt : s.current < s.source.length := by
          by_contra hge
          have hend : s.is_at_end = true := by
            simp only [is_at_end, ge_iff_le, decide_eq_true_eq]
            rw [srcBytes_eq_length s.source h]
            omega
          rw [peek, if_pos hend] at hp
          cases hp
          exact absurd hcond (by decide)
        refine ih (s.advance).2 s' h ?_ hh
        show s.current + 1 ≤ s.source.length
        omega
      · intro hh
        cases hh
        exact hle

theorem digits_loop_region : ∀ (fuel : Nat) (s : Scanner) (s' : Scanner),
    AsciiL s.source → digits_loop fuel s = .ok s' →
    ∀ i, s.current ≤ i → i < s'.current →
      ∃ c, s.source.get? i = some c ∧ charIsNumeric c = true := by
  intro fuel
  induction fuel with
  | zero => intro s s' _ h; exact absurd h (by simp [digits_loop])
  | succ n ih =>
    intro s s' h hh
    rw [digits_loop] at hh
    revert hh
    cases hp : s.peek with
    | none => intro hh; exact absurd hh (by simp)
    | some c =>
      simp only []
      split
      · rename_i hcond
        intro hh i hi1 hi2
        have hne : s.is_at_end = false := by
          by_contra hend
          have hend' : s.is_at_end = true := by
            cases he : s.is_at_end
            · exact absurd he hend
            · rfl
          rw [peek, if_pos hend'] at hp
          cases hp
          exact absurd hcond (by decide)
        rcases Nat.eq_or_lt_of_le hi1 with heq | hlt
        · refine ⟨c, ?_, hcond⟩
          rw [peek, if_neg (by rw [hne]; simp)] at hp
          rw [← heq]
          exact hp
        · exact ih (s.advance).2 s' h hh i hlt hi2
      · intro hh i hi1 hi2
        cases hh
        omega

theorem digits_loop_progress : ∀ (fuel : Nat) (s : Scanner) (s' : Scanner) (c : Char),
    s.peek = some c → charIsNumeric c = true → digits_loop fuel s = .ok s' →
    s.current + 1 ≤ s'.current := by
  intro fuel s s' c hp hc hh
  match fuel with
  | 0 => exact absurd hh (by simp [digits_loop])
  | n + 1 =>
    rw [digits_loop] at hh
    rw [hp] at hh
    simp only [hc, if_true] at hh
    rcases digits_loop_mono n _ s' hh with ⟨_, h2⟩
    exact h2

theorem ident_loop_noPanic : ∀ (fuel : Nat) (s : Scanner),
    AsciiL s.source → ident_loop fuel s ≠ .panicked := by
  intro fuel
  induction fuel with
  | zero => intro s _; simp [ident_loop]
  | succ n ih =>
    intro s h
    rw [ident_loop]
    cases hp : s.peek with
    | none => exact absurd hp (peek_ne_none s h)
    | some c =>
      simp only []
      split
      · exact ih _ h
      · simp

theorem ident_loop_le : ∀ (fuel : Nat) (s : Scanner) (s' : Scanner),
    AsciiL s.source → s.current ≤ s.source.length → ident_loop fuel s = .ok s' →
    s'.current ≤ s'.source.length := by
  intro fuel
  induction fuel with
  | zero => intro s s' _ _ h; exact absurd h (by simp [ident_loop])
  | succ n ih =>
    intro s s' h hle hh
    rw [ident_loop] at hh
    revert hh
    cases hp : s.peek with
    | none => intro hh; exact absurd hh (by simp)
    | some c =>
      simp only []
      split
      · rename_i hcond
        intro hh
        have hlt : s.current < s.source.length := by
          by_contra hge
          have hend : s.is_at_end = true := by
            simp only [is_at_end, ge_iff_le, decide_eq_true_eq]
            rw [srcBytes_eq_length s.source h]
            omega
          rw [peek, if_pos hend] at hp
          cases hp
          exact absurd hcond (by decide)
        refine ih (s.advance).2 s' h ?_ hh
        show s.current + 1 ≤ s.source.length
        omega
      · intro hh
        cases hh
        exact hle

theorem comment_loop_noPanic : ∀ (fuel : Nat) (s : Scanner),
    AsciiL s.source → comment_loop fuel s ≠ .panicked := by
  intro fuel
  induction fuel with
  | zero => intro s _; simp [comment_loop]
  | succ n ih =>
    intro s h
    rw [comment_loop]
    cases hp : s.peek with
    | none => exact absurd hp (peek_ne_none s h)
    | some c =>
      simp only []
      split
      · exact ih _ h
      · simp

theorem comment_loop_le : ∀ (fuel : Nat) (s : Scanner) (s' : Scanner),
    AsciiL s.source → s.current ≤ s.source.length → comment_loop fuel s = .ok s' →
    s'.current ≤ s'.source.length := by
  intro fuel
  induction fuel with
  | zero => intro s s' _ _ h; exact absurd h (by simp [comment_loop])
  | succ n ih =>
    intro s s' h hle hh
    rw [comment_loop] at hh
    revert hh
    cases hp : s.peek with
    | none => intro hh; exact absurd hh (by simp)
    | some c =>
      simp only []
      split
      · rename_i hcond
        intro hh
        have hne : !s.is_at_end := (Bool.and_eq_true _ _ |>.mp hcond).2
        have hlt : s.current < s.source.length := by
          have h1 : s.is_at_end = false := by
            cases he : s.is_at_end
            · rfl
            · rw [he] at hne; exact absurd hne (by decide)
          have h2 : ¬ s.current ≥ srcBytes s.source := by simpa [is_at_end] using h1
          rw [srcBytes_eq_length s.source h] at h2
          omega
        refine ih (s.advance).2 s' h ?_ hh
        show s.current + 1 ≤ s.source.length
        omega
      · intro hh
        cases hh
        exact hle

theorem digitsValGo_isSome : ∀ (l : List Char), (∀ c ∈ l, c.isDigit = true) →
    ∀ acc, (digitsValGo l acc).isSome := by
  intro l
  induction l with
  | nil => intro _ acc; rfl
  | cons c rest ih =>
    intro h acc
    rw [digitsValGo]
    rw [if_pos (h c (List.mem_cons_self c rest))]
    exact ih (fun x hx => h x (List.mem_cons_of_mem c hx)) _

theorem digitsVal_isSome (l : List Char) (hne : l ≠ []) (h : ∀ c ∈ l, c.isDigit = true) :
    (digitsVal l).isSome := by
  match l with
  | [] => exact absurd rfl hne
  | c :: rest => exact digitsValGo_isSome (c :: rest) h 0

theorem takeWhile_append_all (p : Char → Bool) :
    ∀ (l1 l2 : List Char), (∀ c ∈ l1, p c = true) →
      (l1 ++ l2).takeWhile p = l1 ++ l2.takeWhile p := by
  intro l1
  induction l1 with
  | nil => intro l2 _; rfl
  | cons c rest ih =>
    intro l2 h
    rw [List.cons_append, List.takeWhile_cons, if_pos (h c (List.mem_cons_self c rest))]
    rw [ih l2 (fun x hx => h x (List.mem_cons_of_mem c hx))]
    rfl

theorem dropWhile_append_all (p : Char → Bool) :
    ∀ (l1 l2 : List Char), (∀ c ∈ l1, p c = true) →
      (l1 ++ l2).dropWhile p = l2.dropWhile p := by
  intro l1
  induction l1 with
  | nil => intro l2 _; rfl
  | cons c rest ih =>
    intro l2 h
    rw [List.cons_append, List.dropWhile_cons, if_pos (h c (List.mem_cons_self c rest))]
    exact ih l2 (fun x hx => h x (List.mem_cons_of_mem c hx))

theorem parseF64_digits (l : List Char) (hne : l ≠ []) (h : ∀ c ∈ l, c.isDigit = true) :
    (parseF64 (String.mk l)).isSome := by
  have hall : ∀ c ∈ l, (fun c => decide (c ≠ '.')) c = true := by
    intro c hc
    simp only [decide_eq_true_eq]
    intro he
    subst he
    exact absurd (h _ hc) (by decide)
  have htake : l.takeWhile (fun c => decide (c ≠ '.')) = l := by
    have := takeWhile_append_all (fun c => decide (c ≠ '.')) l [] hall
    simpa using this
  have hdrop : l.dropWhile (fun c => decide (c ≠ '.')) = [] := by
    have := dropWhile_append_all (fun c => decide (c ≠ '.')) l [] hall
    simpa using this
  have hs := digitsVal_isSome l hne h
  rcases hv : digitsVal l with _ | n
  · rw [hv] at hs; exact absurd hs (by decide)
  · simp only [parseF64, htake, hdrop, hv, Option.map_some, Option.isSome_some]
    rfl

theorem contains_dot_false (l : List Char) (h : ∀ c ∈ l, c.isDigit = true) :
    l.contains '.' = false := by
  induction l with
  | nil => rfl
  | cons c rest ih =>
    have hc : c.isDigit = true := h c (List.mem_cons_self c rest)
    have hne : c ≠ '.' := by
      intro he
      subst he
      exact absurd hc (by decide)
    simp only [List.contains_cons]
    rw [ih (fun x hx => h x (List.mem_cons_of_mem c hx))]
    simp [BEq.beq]
    intro he
    exact absurd he.symm hne

theorem parseF64_digits_dot (d1 d2 : List Char) (h1 : d1 ≠ []) (h2 : d2 ≠ [])
    (hd1 : ∀ c ∈ d1, c.isDigit = true) (hd2 : ∀ c ∈ d2, c.isDigit = true) :
    (parseF64 (String.mk (d1 ++ '.' :: d2))).isSome := by
  have hall : ∀ c ∈ d1, (fun c => decide (c ≠ '.')) c = true := by
    intro c hc
    simp only [decide_eq_true_eq]
    intro he
    subst he
    exact absurd (hd1 _ hc) (by decide)
  have htake : (d1 ++ '.' :: d2).takeWhile (fun c => decide (c ≠ '.')) = d1 := by
    rw [takeWhile_append_all _ d1 ('.' :: d2) hall]
    rw [List.takeWhile_cons]
    simp
  have hdrop : (d1 ++ '.' :: d2).dropWhile (fun c => decide (c ≠ '.')) = '.' :: d2 := by
    rw [dropWhile_append_all _ d1 ('.' :: d2) hall]
    rw [List.dropWhile_cons]
    simp
  have hcont : d2.contains '.' = false := contains_dot_false d2 hd2
  have hs1 := digitsVal_isSome d1 h1 hd1
  have hs2 := digitsVal_isSome d2 h2 hd2
  rcases hv1 : digitsVal d1 with _ | n1
  · rw [hv1] at hs1; exact absurd hs1 (by decide)
  rcases hv2 : digitsVal d2 with _ | n2
  · rw [hv2] at hs2; exact absurd hs2 (by decide)
  simp only [parseF64, htake, hdrop, hcont, hv1, hv2, Bool.false_eq_true, if_false]
  rfl

theorem string_loop_start : ∀ (fuel : Nat) (s : Scanner) (d : Char) (s' : Scanner),
    string_loop fuel s d = .ok s' → s'.start = s.start := by
  intro fuel
  induction fuel with
  | zero => intro s d s' h; exact absurd h (by simp [string_loop])
  | succ n ih =>
    intro s d s' h
    rw [string_loop] at h
    revert h
    cases hp : s.peek with
    | none => intro h; exact absurd h (by simp)
    | some c =>
      simp only []
      split
      · intro h
        have h1 := ih _ d s' h
        rw [h1]
        split <;> rfl
      · intro h
        cases h
        rfl

theorem digits_loop_start : ∀ (fuel : Nat) (s : Scanner) (s' : Scanner),
    digits_loop fuel s = .ok s' → s'.start = s.start := by
  intro fuel
  induction fuel with
  | zero => intro s s' h; exact absurd h (by simp [digits_loop])
  | succ n ih =>
    intro s s' h
    rw [digits_loop] at h
    revert h
    cases hp : s.peek with
    | none => intro h; exact absurd h (by simp)
    | some c =>
      simp only []
      split
      · intro h
        have h1 := ih _ s' h
        exact h1
      · intro h
        cases h
        rfl

theorem ident_loop_start : ∀ (fuel : Nat) (s : Scanner) (s' : Scanner),
    ident_loop fuel s = .ok s' → s'.start = s.start := by
  intro fuel
  induction fuel with
  | zero => intro s s' h; exact absurd h (by simp [ident_loop])
  | succ n ih =>
    intro s s' h
    rw [ident_loop] at h
    revert h
    cases hp : s.peek with
    | none => intro h; exact absurd h (by simp)
    | some c =>
      simp only []
      split
      · intro h
        have h1 := ih _ s' h
        exact h1
      · intro h
        cases h
        rfl

theorem peek_spec (s : Scanner) (c : Char) (h : s.peek = some c) (hne : c ≠ Char.ofNat 0) :
    s.current < srcBytes s.source ∧ s.source.get? s.current = some c := by
  rw [peek] at h
  revert h
  split
  · intro h
    injection h with h
    exact absurd h.symm hne
  · rename_i hend
    intro h
    refine ⟨?_, h⟩
    simp only [is_at_end, ge_iff_le, decide_eq_true_eq] at hend
    omega

theorem peek_next_spec (s : Scanner) (c : Char) (h : s.peek_next = some c)
    (hne : c ≠ Char.ofNat 0) :
    s.current + 1 < srcBytes s.source ∧ s.source.get? (s.current + 1) = some c := by
  rw [peek_next] at h
  revert h
  split
  · intro h
    injection h with h
    exact absurd h.symm hne
  · rename_i hend
    intro h
    exact ⟨by omega, h⟩

theorem peek_next_ne_none (s : Scanner) (h : AsciiL s.source) : s.peek_next ≠ none := by
  rw [peek_next]
  split
  · simp
  · rename_i hend
    rw [srcBytes_eq_length s.source h] at hend
    rw [Ne, List.get?_eq_none]
    omega

theorem numeric_ne_nul (c : Char) (h : charIsNumeric c = true) : c ≠ Char.ofNat 0 := by
  intro he
  subst he
  exact absurd h (by decide)

/-- The `peek` of an advanced scanner is the original scanner's `peek_next`. -/
theorem peek_advance (s : Scanner) : ((s.advance).2).peek = s.peek_next := by
  have hend : ((s.advance).2).is_at_end = decide (s.current + 1 ≥ srcBytes s.source) := rfl
  rw [peek, peek_next, hend]
  by_cases hc : s.current + 1 ≥ srcBytes s.source
  · rw [decide_eq_true hc, if_pos rfl, if_pos hc]
  · rw [decide_eq_false hc]
    rw [if_neg (by simp), if_neg hc]
    rfl

theorem scan_string_noPanic (fuel : Nat) (s : Scanner) (d : Char)
    (h : AsciiL s.source) (hstart : s.start + 1 = s.current) :
    scan_string fuel s d ≠ .panicked := by
  rw [scan_string]
  cases hr : string_loop fuel s d with
  | fuelOut => simp
  | panicked => exact absurd hr (string_loop_noPanic fuel s d h)
  | ok s1 =>
    rcases string_loop_mono fuel s d s1 hr with ⟨hsrc, hcur⟩
    have hst := string_loop_start fuel s d s1 hr
    have hA1 : AsciiL s1.source := by rw [hsrc]; exact h
    simp only []
    split
    · simp
    · rename_i hend
      have hlt : s1.current < s1.source.length := by
        simp only [is_at_end, ge_iff_le, decide_eq_true_eq] at hend
        rw [srcBytes_eq_length s1.source hA1] at hend
        omega
      cases hs : sliceBytes ((s1.advance).2).source (((s1.advance).2).start + 1)
          (((s1.advance).2).current - 1) with
      | none =>
        exfalso
        have hs' : sliceBytes s1.source (s1.start + 1) (s1.current + 1 - 1) = none := hs
        rw [sliceBytes_ascii s1.source hA1 _ _ (by omega) (by omega)] at hs'
        cases hs'
      | some v =>
        simp only []
        cases ha : ((s1.advance).2).add_token_literal TokenType.StringTok
            (some (Literal.str v)) with
        | none =>
          exfalso
          rw [add_token_literal] at ha
          have hs2 : sliceBytes ((s1.advance).2).source ((s1.advance).2).start
              ((s1.advance).2).current =
              some (String.mk ((s1.source.drop s1.start).take (s1.current + 1 - s1.start))) := by
            show sliceBytes s1.source s1.start (s1.current + 1) = _
            rw [sliceBytes_ascii s1.source hA1 _ _ (by omega) (by omega)]
          rw [hs2] at ha
          simp at ha
        | some s2 => simp

theorem scan_identifier_noPanic (fuel : Nat) (s : Scanner)
    (h : AsciiL s.source) (hstart : s.start ≤ s.current) (hcur : s.current ≤ s.source.length) :
    scan_identifier fuel s ≠ .panicked := by
  rw [scan_identifier]
  cases hr : ident_loop fuel s with
  | fuelOut => simp
  | panicked => exact absurd hr (ident_loop_noPanic fuel s h)
  | ok s1 =>
    rcases ident_loop_mono fuel s s1 hr with ⟨hsrc, hcur1⟩
    have hst := ident_loop_start fuel s s1 hr
    have hA1 : AsciiL s1.source := by rw [hsrc]; exact h
    have hle1 : s1.current ≤ s1.source.length := ident_loop_le fuel s s1 h hcur hr
    simp only []
    cases hs : sliceBytes s1.source s1.start s1.current with
    | none =>
      exfalso
      rw [sliceBytes_ascii s1.source hA1 _ _ (by omega) hle1] at hs
      cases hs
    | some text => simp

theorem all_take_drop (src : List Char) (a b : Nat)
    (f : ∀ i, a ≤ i → i < b → ∃ c, src.get? i = some c ∧ charIsNumeric c = true) :
    ∀ c ∈ (src.drop a).take (b - a), c.isDigit = true := by
  intro c hc
  rcases List.mem_iff_get?.mp hc with ⟨j, hj⟩
  have hjlen : j < ((src.drop a).take (b - a)).length := by
    by_contra hge
    rw [List.get?_eq_none.mpr (by omega)] at hj
    cases hj
  have hjb : j < b - a := by
    rw [List.length_take, List.length_drop] at hjlen
    omega
  rw [List.get?_take hjb, List.get?_drop] at hj
  rcases f (a + j) (by omega) (by omega) with ⟨c', hc', hdigc⟩
  rw [hj] at hc'
  injection hc' with he
  rw [he]
  exact hdigc

theorem take_drop_ne_nil (src : List Char) (a b : Nat) (hab : a < b) (hb : b ≤ src.length) :
    (src.drop a).take (b - a) ≠ [] := by
  intro he
  have hlen := congrArg List.length he
  rw [List.length_take, List.length_drop] at hlen
  simp at hlen
  omega

theorem take_drop_split (src : List Char) (a m b : Nat) (ham : a ≤ m) (hmb : m < b)
    (hb : b ≤ src.length) (hdot : src.get? m = some '.') :
    (src.drop a).take (b - a) =
      ((src.drop a).take (m - a)) ++ '.' :: ((src.drop (m + 1)).take (b - (m + 1))) := by
  have hsplit : b - a = (m - a) + (b - m) := by omega
  rw [hsplit, List.take_add]
  congr 1
  have hdd : (src.drop a).drop (m - a) = src.drop m := by
    rw [List.drop_drop]
    congr 1
    omega
  rw [hdd]
  have hm : m < src.length := by omega
  have hcons : src.drop m = src.get ⟨m, hm⟩ :: src.drop (m + 1) := List.drop_eq_get_cons hm
  have hgd : src.get ⟨m, hm⟩ = '.' := by
    have hq := List.get?_eq_get hm
    rw [hdot] at hq
    injection hq with hq
    exact hq.symm
  rw [hcons, hgd]
  have hbm : b - m = (b - (m + 1)) + 1 := by omega
  rw [hbm, List.take_succ_cons]

theorem scan_number_noPanic (fuel : Nat) (s : Scanner)
    (h : AsciiL s.source) (hstart : s.start + 1 = s.current)
    (hcur : s.current ≤ s.source.length)
    (c0 : Char) (hc0 : s.source.get? s.start = some c0) (hc0d : charIsNumeric c0 = true) :
    scan_number fuel s ≠ .panicked := by
  rw [scan_number]
  cases hr : digits_loop fuel s with
  | fuelOut => simp
  | panicked => exact absurd hr (digits_loop_noPanic fuel s h)
  | ok s1 =>
    rcases digits_loop_mono fuel s s1 hr with ⟨h1, h2⟩
    have hst1 := digits_loop_start fuel s s1 hr
    have hA1 : AsciiL s1.source := by rw [h1]; exact h
    have hle1 : s1.current ≤ s1.source.length := digits_loop_le fuel s s1 h hcur hr
    have hreg1 := digits_loop_region fuel s s1 h hr
    have hregA : ∀ i, s.start ≤ i → i < s1.current →
        ∃ c, s.source.get? i = some c ∧ charIsNumeric c = true := by
      intro i hi1 hi2
      rcases Nat.eq_or_lt_of_le hi1 with heq | hlt
      · exact ⟨c0, heq ▸ hc0, hc0d⟩
      · exact hreg1 i (by omega) hi2
    simp only []
    cases hp1 : s1.peek with
    | none => exact absurd hp1 (peek_ne_none s1 hA1)
    | some c =>
      cases hp2 : s1.peek_next with
      | none => exact absurd hp2 (peek_next_ne_none s1 hA1)
      | some c2 =>
        simp only []
        cases hfr : (if c = '.' && charIsNumeric c2 then digits_loop fuel ((s1.advance).2)
            else ScanRes.ok s1) with
        | fuelOut => simp
        | panicked =>
          exfalso
          revert hfr
          split
          · intro hfr
            exact absurd hfr (digits_loop_noPanic fuel _ hA1)
          · intro hfr
            cases hfr
        | ok s2 =>
          simp only []
          by_cases hbr : (c = '.' && charIsNumeric c2) = true
          · -- fractional branch: the lexeme is digits, a dot, then digits
            rw [if_pos hbr] at hfr
            rcases Bool.and_eq_true _ _ |>.mp hbr with ⟨hcdot, hc2d⟩
            have hcdot' : c = '.' := by simpa using hcdot
            subst hcdot'
            have hps := peek_spec s1 '.' hp1 (by decide)
            have hdot : s.source.get? s1.current = some '.' := by
              rw [← h1]; exact hps.2
            have hlt1 : s1.current < s1.source.length := by
              have := hps.1
              rw [srcBytes_eq_length s1.source hA1] at this
              exact this
            have hpn := peek_next_spec s1 c2 hp2 (numeric_ne_nul c2 hc2d)
            have hA1' : AsciiL ((s1.advance).2).source := hA1
            have hpk : ((s1.advance).2).peek = some c2 := by
              rw [peek_advance]; exact hp2
            have hprog := digits_loop_progress fuel ((s1.advance).2) s2 c2 hpk hc2d hfr
            have hprog' : s1.current + 2 ≤ s2.current := hprog
            rcases digits_loop_mono fuel ((s1.advance).2) s2 hfr with ⟨hm2s, hm2c⟩
            have hm2s' : s2.source = s1.source := hm2s
            have hst2 : s2.start = s1.start := digits_loop_start fuel ((s1.advance).2) s2 hfr
            have hle2 : s2.current ≤ s2.source.length := by
              refine digits_loop_le fuel ((s1.advance).2) s2 hA1' ?_ hfr
              show s1.current + 1 ≤ s1.source.length
              omega
            have hreg2 := digits_loop_region fuel ((s1.advance).2) s2 hA1' hfr
            have hreg2' : ∀ i, s1.current + 1 ≤ i → i < s2.current →
                ∃ c, s.source.get? i = some c ∧ charIsNumeric c = true := by
              intro i hi1 hi2
              rcases hreg2 i hi1 hi2 with ⟨c', hg, hd⟩
              refine ⟨c', ?_, hd⟩
              rw [← h1]
              exact hg
            have hsrc2 : s2.source = s.source := by rw [hm2s', h1]
            have hstart2 : s2.start = s.start := by rw [hst2, hst1]
            have hle2' : s2.current ≤ s.source.length := by rw [← hsrc2]; exact hle2
            have hcur1' : s.start < s1.current := by omega
            have hsplit := take_drop_split s.source s.start s1.current s2.current
              (by omega) (by omega) hle2' hdot
            have hslice : sliceBytes s2.source s2.start s2.current =
                some (String.mk ((s.source.drop s.start).take (s2.current - s.start))) := by
              rw [hsrc2, hstart2]
              exact sliceBytes_ascii s.source h _ _ (by omega) hle2'
            cases hs : sliceBytes s2.source s2.start s2.current with
            | none => rw [hslice] at hs; cases hs
            | some lx =>
              rw [hslice] at hs
              injection hs with hlx
              simp only []
              cases hq : parseF64 lx with
              | none =>
                exfalso
                rw [← hlx, hsplit] at hq
                have hd1 : ∀ c ∈ (s.source.drop s.start).take (s1.current - s.start),
                    c.isDigit = true := all_take_drop s.source s.start s1.current hregA
                have hd2 : ∀ c ∈ (s.source.drop (s1.current + 1)).take
                    (s2.current - (s1.current + 1)), c.isDigit = true :=
                  all_take_drop s.source (s1.current + 1) s2.current hreg2'
                have hne1 : (s.source.drop s.start).take (s1.current - s.start) ≠ [] :=
                  take_drop_ne_nil s.source s.start s1.current (by omega) (by omega)
                have hne2 : (s.source.drop (s1.current + 1)).take
                    (s2.current - (s1.current + 1)) ≠ [] :=
                  take_drop_ne_nil s.source (s1.current + 1) s2.current (by omega) (by omega)
                have hsome := parseF64_digits_dot _ _ hne1 hne2 hd1 hd2
                rw [hq] at hsome
                cases hsome
              | some q =>
                simp only []
                cases ha : s2.add_token_literal TokenType.NumberTok
                    (some (Literal.num (F64.finite q))) with
                | none =>
                  exfalso
                  rw [add_token_literal, hslice] at ha
                  simp at ha
                | some s3 => simp
          · -- no fractional part: the lexeme is a nonempty run of digits
            rw [if_neg hbr] at hfr
            cases hfr
            have hslice : sliceBytes s1.source s1.start s1.current =
                some (String.mk ((s.source.drop s.start).take (s1.current - s.start))) := by
              have hb : sliceBytes s1.source s1.start s1.current =
                  some (String.mk ((s1.source.drop s1.start).take (s1.current - s1.start))) :=
                sliceBytes_ascii s1.source hA1 _ _ (by omega) hle1
              rw [hb, h1, hst1]
            cases hs : sliceBytes s1.source s1.start s1.current with
            | none => rw [hslice] at hs; cases hs
            | some lx =>
              rw [hslice] at hs
              injection hs with hlx
              simp only []
              cases hq : parseF64 lx with
              | none =>
                exfalso
                rw [← hlx] at hq
                have hd1 : ∀ c ∈ (s.source.drop s.start).take (s1.current - s.start),
                    c.isDigit = true := all_take_drop s.source s.start s1.current hregA
                have hne1 : (s.source.drop s.start).take (s1.current - s.start) ≠ [] := by
                  refine take_drop_ne_nil s.source s.start s1.current (by omega) ?_
                  rw [← h1]
                  exact hle1
                have hsome := parseF64_digits _ hne1 hd1
                rw [hq] at hsome
                cases hsome
              | some q =>
                simp only []
                cases ha : s1.add_token_literal TokenType.NumberTok
                    (some (Literal.num (F64.finite q))) with
                | none =>
                  exfalso
                  rw [add_token_literal, hslice] at ha
                  simp at ha
                | some s3 => simp

theorem scan_token_noPanic (fuel : Nat) (s : Scanner)
    (h : AsciiL s.source) (hcur : s.current < s.source.length) (hstart : s.start = s.current) :
    scan_token fuel s ≠ .panicked := by
  rw [scan_token]
  rcases hadv : s.advance with ⟨char, s2⟩
  rw [advance] at hadv
  injection hadv with hchar hs2
  subst hchar
  subst hs2
  simp only []
  cases hc : s.source.get? s.current with
  | none => simp
  | some c =>
    split
    iterate 10 simp
    iterate 4 { split <;> simp }
    iterate 4 simp
    -- '/' arm
    · split
      · refine comment_loop_noPanic fuel _ ?_
        have hm := match_char_mono
          { source := s.source, tokens := s.tokens, reporter := s.reporter, start := s.start,
            current := s.current + 1, line := s.line } '/'
        have h1 : _ = s.source := hm.1
        rw [h1]
        exact h
      · simp
    -- '"' and '\'' arms
    · refine scan_string_noPanic fuel _ _ ?_ ?_
      · exact h
      · show s.start + 1 = s.current + 1
        omega
    · refine scan_string_noPanic fuel _ _ ?_ ?_
      · exact h
      · show s.start + 1 = s.current + 1
        omega
    -- None arm
    · simp
    -- default arm
    · rename_i heq
      injection heq with he
      subst he
      split
      · rename_i hn
        refine scan_number_noPanic fuel _ ?_ ?_ ?_ c ?_ hn
        · exact h
        · show s.start + 1 = s.current + 1
          omega
        · show s.current + 1 ≤ s.source.length
          omega
        · show s.source.get? s.start = some c
          rw [hstart]
          exact hc
      · split
        · refine scan_identifier_noPanic fuel _ ?_ ?_ ?_
          · exact h
          · show s.start ≤ s.current + 1
            omega
          · show s.current + 1 ≤ s.source.length
            omega
        · simp

theorem scan_loop_noPanic : ∀ (fuel : Nat) (s : Scanner),
    AsciiL s.source → scan_loop fuel s ≠ .panicked := by
  intro fuel
  induction fuel with
  | zero => intro s _; simp [scan_loop]
  | succ n ih =>
    intro s h
    rw [scan_loop]
    split
    · simp
    · rename_i hend
      have hcur : s.current < s.source.length := by
        simp only [is_at_end, ge_iff_le, decide_eq_true_eq] at hend
        rw [srcBytes_eq_length s.source h] at hend
        omega
      cases hr : scan_token n { s with start := s.current } with
      | fuelOut => simp
      | panicked =>
        refine absurd hr (scan_token_noPanic n { s with start := s.current } ?_ ?_ rfl)
        · exact h
        · exact hcur
      | ok s3 =>
        rcases scan_token_ok_mono n { s with start := s.current } s3 hr with ⟨h1, h2⟩
        refine ih s3 ?_
        have h1' : s3.source = s.source := h1
        rw [h1']
        exact h

/-- On an all-ASCII source the byte/char index confusion is harmless: the
scanner cannot panic. -/
theorem scan_tokens_ascii_noPanic (src : String) (h : ∀ c ∈ src.data, c.utf8Size = 1) :
    Scanner.scan_tokens (Scanner.new src) ≠ ScanRes.panicked := by
  rw [scan_tokens]
  cases hr : scan_loop (srcBytes (Scanner.new src).source + 1) (Scanner.new src) with
  | ok s1 => simp
  | fuelOut => simp
  | panicked => exact absurd hr (scan_loop_noPanic _ (Scanner.new src) h)

theorem scan_tokens_terminates_eof_last (src : String) :
    Scanner.scan_tokens (Scanner.new src) ≠ ScanRes.fuelOut ∧
    (∀ s', Scanner.scan_tokens (Scanner.new src) = ScanRes.ok s' →
      s'.tokens.getLast? = some (Token.new TokenType.Eof "" none 0)) := by
  constructor
  · rw [scan_tokens]
    cases hr : scan_loop (srcBytes (Scanner.new src).source + 1) (Scanner.new src) with
    | ok s1 => simp
    | panicked => simp
    | fuelOut =>
      exact absurd hr (scan_loop_noFuel _ (Scanner.new src) (by simp [Scanner.new]))
  · intro s' h
    rw [scan_tokens] at h
    revert h
    cases hr : scan_loop (srcBytes (Scanner.new src).source + 1) (Scanner.new src) with
    | panicked => intro h; exact absurd h (by simp)
    | fuelOut => intro h; exact absurd h (by simp)
    | ok s1 =>
      intro h
      cases h
      simp

end Scanner

/-- C6 (counterexample) — on the two-line source `"a\nb"` the scanner's
final line counter is 2, yet the trailing Eof token is pushed with the
hard-coded line 0, not the final line; and on the non-ASCII source `"é"`
(a quoted e-acute) `scan_tokens` PANICS: the char-counter `_current` is used
as a BYTE index when slicing the string literal, and byte 2 is not a char
boundary. -/
theorem c6_eof_line_zero_and_non_ascii_panic :
    Scanner.scan_tokens (Scanner.new "a\nb") =
      ScanRes.ok ⟨"a\nb".data,
        [⟨TokenType.Identifier, "", none, 1⟩, ⟨TokenType.Identifier, "", none, 2⟩,
          ⟨TokenType.Eof, "", none, 0⟩],
        Reporter.new, 2, 3, 2⟩ ∧
    (0 : Nat) ≠ 2 ∧
    Scanner.scan_tokens (Scanner.new "\"é\"") = ScanRes.panicked :=
  ⟨by decide, by decide, by decide⟩

/-- C6 (amended) — for every input string `scan_tokens` terminates (the fuel
standing in for the Rust loops can never run out); every run that does not
panic returns a token list whose last element is an Eof token whose line
field is 0, not the final line number; and on an all-ASCII source the
byte/char index confusion is harmless and the scanner never panics. -/
theorem c6_scan_terminates_eof_line_zero (src : String) :
    Scanner.scan_tokens (Scanner.new src) ≠ ScanRes.fuelOut ∧
    (∀ s', Scanner.scan_tokens (Scanner.new src) = ScanRes.ok s' →
      s'.tokens.getLast? = some (Token.new TokenType.Eof "" none 0)) ∧
    ((∀ c ∈ src.data, c.utf8Size = 1) →
      Scanner.scan_tokens (Scanner.new src) ≠ ScanRes.panicked) :=
  ⟨(Scanner.scan_tokens_terminates_eof_last src).1,
    (Scanner.scan_tokens_terminates_eof_last src).2,
    fun h => Scanner.scan_tokens_ascii_noPanic src h⟩

/-- Witness for `c6_scan_terminates_eof_line_zero` at the concrete source
`"a\nb"`. -/
theorem c6_scan_terminates_eof_line_zero_witness :
    Scanner.scan_tokens (Scanner.new "a\nb") ≠ ScanRes.fuelOut ∧
    (⟨"a\nb".data,
        [⟨TokenType.Identifier, "", none, 1⟩, ⟨TokenType.Identifier, "", none, 2⟩,
          ⟨TokenType.Eof, "", none, 0⟩],
        Reporter.new, 2, 3, 2⟩ : Scanner).tokens.getLast? =
      some (Token.new TokenType.Eof "" none 0) ∧
    Scanner.scan_tokens (Scanner.new "a\nb") ≠ ScanRes.panicked :=
  ⟨(c6_scan_terminates_eof_line_zero "a\nb").1,
    (c6_scan_terminates_eof_line_zero "a\nb").2.1 _ (by decide),
    (c6_scan_terminates_eof_line_zero "a\nb").2.2 (by decide)⟩

end RLox
